import Mathlib

set_option maxRecDepth 4000

/-!
Verification development for the codex-summarize-session repository.

Python strings are modelled as `List Char` (`PyStr`), filesystem paths as
lists of components, JSON values by the inductive `PyJson`, and the
OpenRouter HTTP layer by explicit response scripts.  Each definition is a
shallow embedding of the correspondingly named Python function.
`str.strip` and `str.splitlines` carry Python's full whitespace and
line-boundary character sets, and text-mode reads apply the
universal-newline translation; `str.lower` / `str.isalnum` are modelled on
their ASCII fragment extended with U+0130 (the one character whose
lowercase expands to two characters) and U+0307 (its combining mark).
-/

/-- Python strings, modelled as lists of characters. -/
abbrev PyStr := List Char

/-- Coerce a Lean string literal into the `PyStr` model. -/
def pyOf (s : String) : PyStr := s.data

/-- The characters with Python `str.isspace() = True` (category Zs, Zl,
Zp, or bidirectional WS/B/S): exactly what `str.strip()` strips. -/
def pyWhitespace : PyStr :=
  [' ', '\t', '\n', '\r', '\x0b', '\x0c',
   '\x1c', '\x1d', '\x1e', '\x1f', '\x85', '\xa0',
   '\u1680', '\u2000', '\u2001', '\u2002', '\u2003', '\u2004', '\u2005',
   '\u2006', '\u2007', '\u2008', '\u2009', '\u200a', '\u2028', '\u2029',
   '\u202f', '\u205f', '\u3000']

/-- Model of the character class of Python `str.strip()`. -/
def pyIsSpace (c : Char) : Bool := decide (c ∈ pyWhitespace)

/-- Model of Python `str.strip()`: drop whitespace from both ends. -/
def pyStrip (s : PyStr) : PyStr :=
  ((s.dropWhile pyIsSpace).reverse.dropWhile pyIsSpace).reverse

/-- The ASCII uppercase letters. -/
def asciiUpper : PyStr :=
  ['A', 'B', 'C', 'D', 'E', 'F', 'G', 'H', 'I', 'J', 'K', 'L', 'M',
   'N', 'O', 'P', 'Q', 'R', 'S', 'T', 'U', 'V', 'W', 'X', 'Y', 'Z']

/-- The ASCII lowercase letters. -/
def asciiLower : PyStr :=
  ['a', 'b', 'c', 'd', 'e', 'f', 'g', 'h', 'i', 'j', 'k', 'l', 'm',
   'n', 'o', 'p', 'q', 'r', 's', 't', 'u', 'v', 'w', 'x', 'y', 'z']

/-- The ASCII digits. -/
def asciiDigits : PyStr := ['0', '1', '2', '3', '4', '5', '6', '7', '8', '9']

/-- Model of Python `str.isupper` for a single character (ASCII fragment). -/
def pyIsUpper (c : Char) : Bool := decide (c ∈ asciiUpper)

/-- U+0130 LATIN CAPITAL LETTER I WITH DOT ABOVE: the one character whose
CPython `str.lower()` expands to two characters. -/
def latinCapitalIDot : Char := Char.ofNat 0x0130

/-- U+0307 COMBINING DOT ABOVE: the second character of `'İ'.lower()`; a
combining mark, which Python's `str.isalnum` rejects. -/
def combiningDotAbove : Char := Char.ofNat 0x0307

/-- Model of Python `str.isalnum` for a single character: the ASCII
classes, extended with U+0130 (alphanumeric, with a multi-character
lowercase); U+0307 is a combining mark and stays non-alphanumeric. -/
def pyIsAlnum (c : Char) : Bool :=
  decide (c ∈ asciiUpper) || decide (c ∈ asciiLower) || decide (c ∈ asciiDigits) ||
    c == latinCapitalIDot

/-- ASCII single-character case mapping (the table fragment of
`str.lower`). -/
def pyLower (c : Char) : Char :=
  match (asciiUpper.zip asciiLower).lookup c with
  | some l => l
  | none => c

/-- Model of Python `str.lower` of a one-character string, as a string:
the ASCII table extended with the one multi-character case
`'İ'.lower() = "i" + U+0307`. -/
def pyCharLower (c : Char) : PyStr :=
  if c = latinCapitalIDot then ['i', combiningDotAbove] else [pyLower c]

/-- The `normalized` local of `storage._slugify`: strip the input, then
per character append its lowercase when alphanumeric and a hyphen
otherwise (`"".join(ch.lower() if ch.isalnum() else "-" ...)`). -/
def slugNormalized (value : PyStr) : PyStr :=
  (pyStrip value).flatMap (fun ch => if pyIsAlnum ch then pyCharLower ch else ['-'])

/-- The `parts` local of `storage._slugify`: split on hyphens and drop the
empty fragments. -/
def slugParts (value : PyStr) : List PyStr :=
  ((slugNormalized value).splitOn '-').filter (fun part => part ≠ [])

/-- Embedding of `storage._slugify`: lowercase alphanumerics, collapse
everything else to single hyphens, strip edge hyphens, defaulting to
`"default"` when nothing remains. -/
def slugify (value : PyStr) : PyStr :=
  let slug := List.intercalate (pyOf "-") (slugParts value)
  if slug = [] then pyOf "default" else slug

/-! ### Generic list lemmas used throughout -/

theorem modifyHead_append {α : Type} (f : α → α) (xs ys : List α)
    (h : xs ≠ []) : (xs ++ ys).modifyHead f = xs.modifyHead f ++ ys := by
  cases xs with
  | nil => exact absurd rfl h
  | cons a t => simp

theorem mem_of_mem_splitOnP {α : Type} (p : α → Bool) (xs : List α) :
    ∀ l ∈ xs.splitOnP p, ∀ y ∈ l, y ∈ xs ∧ p y = false := by
  induction xs with
  | nil =>
    intro l hl y hy
    simp only [List.splitOnP_nil, List.mem_singleton] at hl
    subst hl; simp at hy
  | cons hd tl ih =>
    intro l hl y hy
    rw [List.splitOnP_cons] at hl
    by_cases hp : p hd
    · rw [if_pos hp] at hl
      rcases List.mem_cons.mp hl with h | h
      · subst h; simp at hy
      · obtain ⟨hm, hpy⟩ := ih l h y hy
        exact ⟨List.mem_cons_of_mem _ hm, hpy⟩
    · rw [if_neg hp] at hl
      cases hsp : tl.splitOnP p with
      | nil => exact absurd hsp (List.splitOnP_ne_nil p tl)
      | cons h t =>
        rw [hsp] at hl
        simp only [List.modifyHead] at hl
        rcases List.mem_cons.mp hl with hc | hc
        · subst hc
          rcases List.mem_cons.mp hy with hy' | hy'
          · subst hy'
            exact ⟨List.mem_cons_self _ _, by simpa using hp⟩
          · obtain ⟨hm, hpy⟩ := ih h (hsp ▸ List.mem_cons_self _ _) y hy'
            exact ⟨List.mem_cons_of_mem _ hm, hpy⟩
        · obtain ⟨hm, hpy⟩ := ih l (hsp ▸ List.mem_cons_of_mem _ hc) y hy
          exact ⟨List.mem_cons_of_mem _ hm, hpy⟩

theorem mem_of_mem_splitOn {α : Type} [DecidableEq α] (x : α) (xs : List α) :
    ∀ l ∈ xs.splitOn x, ∀ y ∈ l, y ∈ xs ∧ y ≠ x := by
  intro l hl y hy
  obtain ⟨hm, hp⟩ := mem_of_mem_splitOnP (fun a => a == x) xs l hl y hy
  exact ⟨hm, by simpa using hp⟩

theorem intercalate_cons_cons {α : Type} (s a b : List α) (t : List (List α)) :
    List.intercalate s (a :: b :: t) = a ++ s ++ List.intercalate s (b :: t) := by
  simp [List.intercalate]

theorem intercalate_single {α : Type} (s a : List α) :
    List.intercalate s [a] = a := by
  simp [List.intercalate]

theorem mem_intercalate {α : Type} (s : List α) (ls : List (List α)) :
    ∀ y ∈ List.intercalate s ls, (∃ l ∈ ls, y ∈ l) ∨ y ∈ s := by
  induction ls with
  | nil => intro y hy; simp [List.intercalate] at hy
  | cons a t ih =>
    cases t with
    | nil =>
      intro y hy
      rw [intercalate_single] at hy
      exact Or.inl ⟨a, List.mem_singleton_self a, hy⟩
    | cons b t' =>
      intro y hy
      rw [intercalate_cons_cons] at hy
      rcases List.mem_append.mp hy with h | h
      · rcases List.mem_append.mp h with h' | h'
        · exact Or.inl ⟨a, List.mem_cons_self _ _, h'⟩
        · exact Or.inr h'
      · rcases ih y h with ⟨l, hl, hyl⟩ | h'
        · exact Or.inl ⟨l, List.mem_cons_of_mem _ hl, hyl⟩
        · exact Or.inr h'

theorem splitOn_append_sep {α : Type} [DecidableEq α] (x : α) (a b : List α) :
    (a ++ x :: b).splitOn x = a.splitOn x ++ b.splitOn x := by
  induction a with
  | nil =>
    show (x :: b).splitOnP (fun a => a == x) = _
    rw [List.splitOnP_cons, if_pos (by simp)]
    rfl
  | cons hd tl ih =>
    simp only [List.splitOn] at ih ⊢
    rw [List.cons_append, List.splitOnP_cons, List.splitOnP_cons]
    by_cases h : (hd == x) = true
    · rw [if_pos h, if_pos h, ih, List.cons_append]
    · rw [if_neg h, if_neg h, ih,
        modifyHead_append _ _ _ (List.splitOnP_ne_nil _ tl)]

theorem dropWhile_eq_self_of_all {α : Type} (p : α → Bool) (l : List α)
    (h : ∀ y ∈ l, p y = false) : l.dropWhile p = l := by
  cases l with
  | nil => rfl
  | cons a t => rw [List.dropWhile_cons, h a (List.mem_cons_self _ _)]; simp

theorem pyStrip_eq_self_of_all (s : PyStr) (h : ∀ y ∈ s, pyIsSpace y = false) :
    pyStrip s = s := by
  unfold pyStrip
  rw [dropWhile_eq_self_of_all _ _ h,
    dropWhile_eq_self_of_all _ _ (fun y hy => h y (List.mem_reverse.mp hy)),
    List.reverse_reverse]

/-! ### Character classification facts for the slug alphabet -/

/-- Characters that can appear inside a slug part: lowercase ASCII letters
and digits. -/
def slugChar (c : Char) : Bool := decide (c ∈ asciiLower) || decide (c ∈ asciiDigits)

theorem slugChar_of_lower_alnum (c : Char) (h : pyIsAlnum c = true)
    (hnd : c ≠ latinCapitalIDot) :
    pyCharLower c = [pyLower c] ∧ slugChar (pyLower c) = true := by
  refine ⟨by unfold pyCharLower; rw [if_neg hnd], ?_⟩
  unfold pyIsAlnum at h
  rcases Bool.or_eq_true_iff.mp h with h' | hdot
  · rcases Bool.or_eq_true_iff.mp h' with h'' | hd
    · rcases Bool.or_eq_true_iff.mp h'' with hu | hl
      · exact (by decide : ∀ c ∈ asciiUpper, slugChar (pyLower c) = true) c
          (of_decide_eq_true hu)
      · exact (by decide : ∀ c ∈ asciiLower, slugChar (pyLower c) = true) c
          (of_decide_eq_true hl)
    · exact (by decide : ∀ c ∈ asciiDigits, slugChar (pyLower c) = true) c
        (of_decide_eq_true hd)
  · exact absurd (eq_of_beq hdot) hnd

theorem slugChar_props (c : Char) (h : slugChar c = true) :
    pyLower c = c ∧ pyIsAlnum c = true ∧ pyIsSpace c = false ∧
      c ≠ '-' ∧ pyIsUpper c = false ∧ c ≠ latinCapitalIDot := by
  unfold slugChar at h
  rcases Bool.or_eq_true_iff.mp h with hl | hd
  · exact (by decide : ∀ c ∈ asciiLower, pyLower c = c ∧ pyIsAlnum c = true ∧
      pyIsSpace c = false ∧ c ≠ '-' ∧ pyIsUpper c = false ∧ c ≠ latinCapitalIDot) c
      (of_decide_eq_true hl)
  · exact (by decide : ∀ c ∈ asciiDigits, pyLower c = c ∧ pyIsAlnum c = true ∧
      pyIsSpace c = false ∧ c ≠ '-' ∧ pyIsUpper c = false ∧ c ≠ latinCapitalIDot) c
      (of_decide_eq_true hd)

theorem hyphen_props : pyIsAlnum '-' = false ∧ pyIsSpace '-' = false := by decide

theorem not_isUpper_hyphen : pyIsUpper '-' = false := by decide

/-- ASCII strings: the fragment on which the character model agrees with
full CPython `str.lower` / `str.isalnum`. -/
def pyAscii (s : PyStr) : Prop := ∀ c ∈ s, c.toNat ≤ 127

theorem mem_pyStrip (s : PyStr) (c : Char) (hc : c ∈ pyStrip s) : c ∈ s := by
  unfold pyStrip at hc
  rw [List.mem_reverse] at hc
  have h1 := (List.dropWhile_sublist pyIsSpace).subset hc
  rw [List.mem_reverse] at h1
  exact (List.dropWhile_sublist pyIsSpace).subset h1

theorem noDot_of_pyAscii (s : PyStr) (h : pyAscii s) :
    ∀ c ∈ pyStrip s, c ≠ latinCapitalIDot := by
  intro c hc heq
  have := h c (mem_pyStrip s c hc)
  subst heq
  exact absurd this (by decide)

theorem slugNormalized_eq_map (v : PyStr)
    (hnd : ∀ c ∈ pyStrip v, c ≠ latinCapitalIDot) :
    slugNormalized v =
      (pyStrip v).map (fun ch => if pyIsAlnum ch then pyLower ch else '-') := by
  unfold slugNormalized
  suffices H : ∀ l : PyStr, (∀ c ∈ l, c ≠ latinCapitalIDot) →
      l.flatMap (fun ch => if pyIsAlnum ch then pyCharLower ch else ['-']) =
      l.map (fun ch => if pyIsAlnum ch then pyLower ch else '-') by
    exact H (pyStrip v) hnd
  intro l hl
  induction l with
  | nil => rfl
  | cons c t ih =>
    rw [List.flatMap_cons, List.map_cons,
      ih (fun z hz => hl z (List.mem_cons_of_mem _ hz))]
    by_cases ha : pyIsAlnum c = true
    · rw [if_pos ha, if_pos ha,
        (slugChar_of_lower_alnum c ha (hl c (List.mem_cons_self _ _))).1]
      rfl
    · rw [if_neg ha, if_neg ha]
      rfl

/-! ### Structure of slugify output -/

theorem mem_slugNormalized (v : PyStr) (hnd : ∀ c ∈ pyStrip v, c ≠ latinCapitalIDot)
    (c : Char) (hc : c ∈ slugNormalized v) :
    c = '-' ∨ slugChar c = true := by
  rw [slugNormalized_eq_map v hnd] at hc
  obtain ⟨ch, hchm, hch⟩ := List.mem_map.mp hc
  by_cases ha : pyIsAlnum ch = true
  · right
    rw [← hch, if_pos ha]
    exact (slugChar_of_lower_alnum ch ha (hnd ch hchm)).2
  · left
    rw [← hch, if_neg ha]

theorem mem_slugParts (v : PyStr) (hnd : ∀ c ∈ pyStrip v, c ≠ latinCapitalIDot)
    (l : PyStr) (hl : l ∈ slugParts v) :
    l ≠ [] ∧ ∀ c ∈ l, slugChar c = true := by
  unfold slugParts at hl
  have hmem := List.mem_of_mem_filter hl
  have hne : l ≠ [] := by
    have := List.of_mem_filter hl
    simpa using this
  refine ⟨hne, fun c hc => ?_⟩
  obtain ⟨hcn, hcne⟩ := mem_of_mem_splitOn '-' (slugNormalized v) l hmem c hc
  rcases mem_slugNormalized v hnd c hcn with h | h
  · exact absurd h hcne
  · exact h

theorem slugParts_ne_nil_of_intercalate_ne_nil (v : PyStr)
    (h : List.intercalate (pyOf "-") (slugParts v) ≠ []) : slugParts v ≠ [] := by
  intro hp
  apply h
  rw [hp]
  simp [List.intercalate]

theorem mem_slugify (v : PyStr) (hnd : ∀ c ∈ pyStrip v, c ≠ latinCapitalIDot)
    (c : Char) (hc : c ∈ slugify v) :
    c = '-' ∨ slugChar c = true := by
  unfold slugify at hc
  by_cases hs : List.intercalate (pyOf "-") (slugParts v) = []
  · rw [if_pos hs] at hc
    have : ∀ c ∈ pyOf "default", slugChar c = true := by decide
    exact Or.inr (this c hc)
  · rw [if_neg hs] at hc
    rcases mem_intercalate (pyOf "-") (slugParts v) c hc with ⟨l, hl, hcl⟩ | h
    · exact Or.inr ((mem_slugParts v hnd l hl).2 c hcl)
    · left; simpa [pyOf] using h

theorem slugify_fixed (v : PyStr) (hnd : ∀ c ∈ pyStrip v, c ≠ latinCapitalIDot) :
    slugify (slugify v) = slugify v := by
  by_cases hs : List.intercalate (pyOf "-") (slugParts v) = []
  · have hdef : slugify v = pyOf "default" := by unfold slugify; rw [if_pos hs]
    rw [hdef]
    decide
  · have hval : slugify v = List.intercalate (pyOf "-") (slugParts v) := by
      unfold slugify; rw [if_neg hs]
    set slug := List.intercalate (pyOf "-") (slugParts v) with hslug
    have hchars : ∀ c ∈ slug, c = '-' ∨ slugChar c = true := by
      intro c hc
      exact mem_slugify v hnd c (hval ▸ hc)
    -- the strip pass leaves the slug unchanged
    have hstrip : pyStrip slug = slug := by
      apply pyStrip_eq_self_of_all
      intro y hy
      rcases hchars y hy with h | h
      · rw [h]; exact hyphen_props.2
      · exact (slugChar_props y h).2.2.1
    have hndslug : ∀ c ∈ pyStrip slug, c ≠ latinCapitalIDot := by
      intro c hc
      rcases hchars c (mem_pyStrip slug c hc) with h | h
      · rw [h]; decide
      · exact (slugChar_props c h).2.2.2.2.2
    -- the lowering pass leaves the slug unchanged
    have hmap : slugNormalized slug = slug := by
      rw [slugNormalized_eq_map slug hndslug, hstrip]
      have : ∀ c ∈ slug, (if pyIsAlnum c = true then pyLower c else '-') = c := by
        intro c hc
        rcases hchars c hc with h | h
        · subst h
          rw [if_neg (by simp [hyphen_props.1])]
        · obtain ⟨hlow, haln, -, -, -, -⟩ := slugChar_props c h
          rw [if_pos haln, hlow]
      calc slug.map (fun ch => if pyIsAlnum ch then pyLower ch else '-')
          = slug.map id := List.map_congr_left (by simpa using this)
        _ = slug := List.map_id slug
    -- splitting the slug on hyphens recovers the parts exactly
    have hparts : slugParts slug = slugParts v := by
      unfold slugParts
      rw [hmap, hslug]
      have hsep : ∀ l ∈ slugParts v, '-' ∉ l := by
        intro l hl hmem
        have := (mem_slugParts v hnd l hl).2 '-' hmem
        exact absurd this (by decide)
      have hnn : slugParts v ≠ [] := slugParts_ne_nil_of_intercalate_ne_nil v hs
      rw [show (pyOf "-") = ['-'] from rfl, List.splitOn_intercalate (slugParts v) '-' hsep hnn]
      exact List.filter_eq_self.mpr (fun a ha => by simpa using (mem_slugParts v hnd a ha).1)
    rw [hval]
    unfold slugify
    rw [hparts, ← hslug, if_neg hs]

/-- Counterexample to claim C9 as stated: `_slugify` is not idempotent on
the one-character input U+0130 (`"İ"`).  Its CPython lowercase is the
two-character `"i"` + U+0307; the combining mark passes the first
normalization untouched (inside `'İ'.lower()`), but on the second pass it
is itself alnum-checked, collapses to a hyphen, and is dropped:
`_slugify("İ")` is `"i"` + U+0307 while `_slugify(_slugify("İ")) = "i"`. -/
theorem c9_counterexample_dotted_capital_i :
    slugify (slugify [latinCapitalIDot]) ≠ slugify [latinCapitalIDot] ∧
    slugify [latinCapitalIDot] = ['i', combiningDotAbove] ∧
    slugify (slugify [latinCapitalIDot]) = ['i'] :=
  ⟨by decide, by decide, by decide⟩

/-- Claim C9 (amended): on ASCII inputs `_slugify` is idempotent, and its
output is non-empty, lowercase, and free of leading, trailing, or repeated
hyphens.  The hyphen conditions are stated by splitting the output on
hyphens: an empty first, last, or middle fragment corresponds exactly to a
leading, trailing, or repeated hyphen, so all three are excluded by
requiring every fragment to be non-empty.  Unrestricted idempotence is
false: `'İ'.lower()` is the two-character `"i"` + U+0307, whose combining
mark survives the first pass and is dropped by the second. -/
theorem c9_slugify_idempotent_wellformed (v : PyStr) (hascii : pyAscii v) :
    slugify (slugify v) = slugify v ∧
    slugify v ≠ [] ∧
    (∀ c ∈ slugify v, pyIsUpper c = false) ∧
    (∀ part ∈ (slugify v).splitOn '-', part ≠ []) := by
  have hnd : ∀ c ∈ pyStrip v, c ≠ latinCapitalIDot := noDot_of_pyAscii v hascii
  refine ⟨slugify_fixed v hnd, ?_, ?_, ?_⟩
  · unfold slugify
    by_cases hs : List.intercalate (pyOf "-") (slugParts v) = []
    · rw [if_pos hs]; decide
    · rw [if_neg hs]; exact hs
  · intro c hc
    rcases mem_slugify v hnd c hc with h | h
    · rw [h]; exact not_isUpper_hyphen
    · exact (slugChar_props c h).2.2.2.2.1
  · intro part hpart
    by_cases hs : List.intercalate (pyOf "-") (slugParts v) = []
    · have hdef : slugify v = pyOf "default" := by unfold slugify; rw [if_pos hs]
      rw [hdef] at hpart
      have : ∀ p ∈ (pyOf "default").splitOn '-', p ≠ [] := by decide
      exact this part hpart
    · have hval : slugify v = List.intercalate (pyOf "-") (slugParts v) := by
        unfold slugify; rw [if_neg hs]
      rw [hval] at hpart
      have hsep : ∀ l ∈ slugParts v, '-' ∉ l := by
        intro l hl hmem
        have := (mem_slugParts v hnd l hl).2 '-' hmem
        exact absurd this (by decide)
      have hnn : slugParts v ≠ [] := slugParts_ne_nil_of_intercalate_ne_nil v hs
      rw [show (pyOf "-") = ['-'] from rfl, List.splitOn_intercalate (slugParts v) '-' hsep hnn] at hpart
      exact (mem_slugParts v hnd part hpart).1

/-! ### Filesystem paths

Paths are modelled as lists of components; `Path.expanduser().resolve()`
is the identity in this model (paths are taken absolute and normalized).
The SHA-1 digest used for external sessions is kept as an explicit
function parameter `digest`, since no claim depends on its concrete
value. -/

/-- Filesystem paths, as absolute normalized component lists. -/
abbrev FsPath := List PyStr

/-- Final component of a path, or the empty string for the root. -/
def pathName (p : FsPath) : PyStr := p.getLast?.getD []

/-- Model of `pathlib.PurePath.stem`: the name has a suffix only when the
rightmost dot (`name.rfind('.')`) sits at an index `i` with
`0 < i < len - 1`; then the stem is everything before that dot, else the
whole name. -/
def pathStem (p : FsPath) : PyStr :=
  let name := pathName p
  match (List.range name.length).reverse.find?
      (fun i => name.get? i == some '.') with
  | some i =>
    if 0 < i ∧ i < name.length - 1 then name.take i else name
  | none => name

/-- Embedding of `storage.SummaryPathResolver.__init__` state. -/
structure SummaryPathResolver where
  summaryRoot : FsPath
  sessionsRoot : Option FsPath

/-- Embedding of `SummaryPathResolver._relative_source_dir`: the path
relative to the sessions root when the session lies under it, else an
`external/<digest12>-<slugified-stem>` directory. -/
def relativeSourceDir (digest : FsPath → PyStr) (r : SummaryPathResolver)
    (sessionPath : FsPath) : FsPath :=
  let externalDir : FsPath :=
    [pyOf "external", digest sessionPath ++ pyOf "-" ++ slugify (pathStem sessionPath)]
  match r.sessionsRoot with
  | some root =>
    if root.isPrefixOf sessionPath then sessionPath.drop root.length else externalDir
  | none => externalDir

/-- Embedding of `SummaryPathResolver.cache_path_for`.  The `model`
argument is received and discarded exactly as in the source
(`_ = model`). -/
def cache_path_for (digest : FsPath → PyStr) (r : SummaryPathResolver)
    (sessionPath : FsPath) (promptVariant : PyStr) (model : PyStr) : FsPath :=
  let relativeDir := relativeSourceDir digest r sessionPath
  let promptSlug := slugify promptVariant
  let _ := model
  r.summaryRoot ++ relativeDir ++ [promptSlug] ++ [pyOf "summary.md"]

/-- Embedding of `SummaryPathResolver.messages_path_for`. -/
def messages_path_for (digest : FsPath → PyStr) (r : SummaryPathResolver)
    (sessionPath : FsPath) : FsPath :=
  r.summaryRoot ++ relativeSourceDir digest r sessionPath ++ [pyOf "summary.messages.jsonl"]

/-- Claim C4: the cache path is a pure deterministic function of
(session path, prompt variant, summary root): two calls with identical
inputs yield identical output, and two calls differing only in the
`model` argument yield the same path.  Quantifying over `digest` shows
this holds for every implementation of the hash. -/
theorem c4_cache_path_deterministic_and_model_free
    (digest : FsPath → PyStr) (r : SummaryPathResolver)
    (sessionPath : FsPath) (promptVariant m1 m2 : PyStr) :
    cache_path_for digest r sessionPath promptVariant m1 =
      cache_path_for digest r sessionPath promptVariant m1 ∧
    cache_path_for digest r sessionPath promptVariant m1 =
      cache_path_for digest r sessionPath promptVariant m2 :=
  ⟨rfl, rfl⟩

/-! ### JSON values

JSON numbers are modelled as rationals (float semantics are outside the
model), strings as `PyStr`, objects as association lists with first-match
lookup (JSON objects parsed by `json.loads` have unique keys). -/

inductive PyJson where
  | null
  | bool (b : Bool)
  | num (q : ℚ)
  | str (s : PyStr)
  | arr (elems : List PyJson)
  | obj (fields : List (PyStr × PyJson))

/-- Model of Python `dict.get` on a JSON object's fields. -/
def jget (fields : List (PyStr × PyJson)) (k : PyStr) : Option PyJson :=
  (fields.find? (fun kv => kv.1 == k)).map Prod.snd

/-- Key-presence test, modelling Python `k in dict`. -/
def jhasKey (fields : List (PyStr × PyJson)) (k : PyStr) : Bool :=
  (jget fields k).isSome

/-- Model of Python truthiness for JSON values. -/
def jtruthy : PyJson → Bool
  | .null => false
  | .bool b => b
  | .num q => decide (q ≠ 0)
  | .str s => decide (s ≠ [])
  | .arr l => !l.isEmpty
  | .obj f => !f.isEmpty

/-- Python `value == "message"`: true exactly for the equal string. -/
def isMessageTag : Option PyJson → Bool
  | some (.str s) => s == pyOf "message"
  | _ => false

/-! ### Embedding of messages.py -/

/-- First update of the payload branch of `extract_message_from_obj`:
inherit the outer `timestamp` when it is not `None` (a JSON `null` and an
absent field are both Python `None`) and the key is absent on the
payload. -/
def promoteTs (fields pfields : List (PyStr × PyJson)) : List (PyStr × PyJson) :=
  match jget fields (pyOf "timestamp") with
  | some PyJson.null => pfields
  | some ts =>
    if jhasKey pfields (pyOf "timestamp") then pfields
    else pfields ++ [(pyOf "timestamp", ts)]
  | none => pfields

/-- The promoted message built in the payload branch of
`extract_message_from_obj`: a copy of the payload dict, inheriting the
outer `timestamp` (when not `None`) and the outer `id` as `response_id`
(when truthy), each only when the key is absent so far. -/
def promotePayload (fields pfields : List (PyStr × PyJson)) : List (PyStr × PyJson) :=
  let m1 := promoteTs fields pfields
  match jget fields (pyOf "id") with
  | some rid =>
    if jtruthy rid = true then
      if jhasKey m1 (pyOf "response_id") then m1 else m1 ++ [(pyOf "response_id", rid)]
    else m1
  | none => m1

/-- Embedding of `messages.extract_message_from_obj`.  A JSON `null` field
value and an absent field are both Python `None`, so the two cases
coincide under `jget ... = some .null` vs `none` in the guards. -/
def extract_message_from_obj (j : PyJson) : Option PyJson :=
  match j with
  | .obj fields =>
    if isMessageTag (jget fields (pyOf "type")) then some (.obj fields)
    else
      match jget fields (pyOf "payload") with
      | some (.obj pfields) =>
        if isMessageTag (jget pfields (pyOf "type")) then
          some (.obj (promotePayload fields pfields))
        else none
      | _ => none
  | _ => none

/-- Lines of a JSONL file, at the `json.loads` boundary: blank lines,
lines that fail to parse, and parsed JSON values. -/
inductive SessLine where
  | blank
  | malformed
  | val (j : PyJson)

/-- Embedding of `messages.iter_jsonl`: yield the parsed values, skipping
blank and malformed lines (the `except JSONDecodeError: continue`). -/
def iter_jsonl (lines : List SessLine) : List PyJson :=
  lines.filterMap (fun l => match l with | .val j => some j | _ => none)

/-- Embedding of `messages.iter_messages`, including the truthiness filter
`if message:` of the source. -/
def iter_messages (lines : List SessLine) : List PyJson :=
  (iter_jsonl lines).filterMap
    (fun o =>
      match extract_message_from_obj o with
      | some m => if jtruthy m then some m else none
      | none => none)

/-- Embedding of `messages.write_messages_jsonl` as a pure function: the
list of serialized messages and the returned count. -/
def write_messages_jsonl (sourceLines : List SessLine) : List PyJson × Nat :=
  let msgs := iter_messages sourceLines
  (msgs, msgs.length)

/-! ### Claims about the message extractor -/

/-- The record's top-level `type` field equals `"message"`. -/
def hasTopLevelMessageType (j : PyJson) : Bool :=
  match j with
  | .obj fields => isMessageTag (jget fields (pyOf "type"))
  | _ => false

/-- The record has a `payload` field that is an object whose `type` equals
`"message"`. -/
def hasMessagePayload (j : PyJson) : Bool :=
  match j with
  | .obj fields =>
    match jget fields (pyOf "payload") with
    | some (.obj pfields) => isMessageTag (jget pfields (pyOf "type"))
    | _ => false
  | _ => false

theorem jget_append (a b : List (PyStr × PyJson)) (k : PyStr) :
    jget (a ++ b) k =
      match jget a k with
      | some v => some v
      | none => jget b k := by
  induction a with
  | nil => simp [jget]
  | cons kv t ih =>
    by_cases h : (kv.1 == k) = true
    · simp [jget, List.find?_cons_of_pos, h]
    · simp only [jget] at ih ⊢
      rw [List.cons_append,
        List.find?_cons_of_neg _ (by simpa using h),
        List.find?_cons_of_neg _ (by simpa using h)]
      exact ih

theorem jget_singleton_ne (k k' : PyStr) (v : PyJson) (h : k' ≠ k) :
    jget [(k, v)] k' = none := by
  simp [jget, List.find?_cons_of_neg, h, beq_iff_eq]
  intro hc
  exact absurd hc.symm h

theorem jget_nonempty (fields : List (PyStr × PyJson)) (k : PyStr)
    (h : (jget fields k).isSome = true) : fields ≠ [] := by
  intro hf
  subst hf
  simp [jget] at h

theorem promoteTs_ne_nil (fields pfields : List (PyStr × PyJson))
    (h : pfields ≠ []) : promoteTs fields pfields ≠ [] := by
  unfold promoteTs
  cases hts : jget fields (pyOf "timestamp") with
  | none => exact h
  | some ts =>
    cases ts with
    | null => exact h
    | _ =>
      by_cases hk : jhasKey pfields (pyOf "timestamp") = true
      all_goals simp [hk, h]

theorem promotePayload_ne_nil (fields pfields : List (PyStr × PyJson))
    (h : pfields ≠ []) : promotePayload fields pfields ≠ [] := by
  unfold promotePayload
  have hne : promoteTs fields pfields ≠ [] := promoteTs_ne_nil fields pfields h
  cases jget fields (pyOf "id") with
  | none => exact hne
  | some rid =>
    by_cases ht : jtruthy rid = true
    · by_cases hk : jhasKey (promoteTs fields pfields) (pyOf "response_id") = true
      · simp [ht, hk, hne]
      · simp [ht, hk, hne]
    · simp [ht, hne]

theorem jget_promoteTs_ne_ts (fields pfields : List (PyStr × PyJson)) (k : PyStr)
    (hk : k ≠ pyOf "timestamp") :
    jget (promoteTs fields pfields) k = jget pfields k := by
  unfold promoteTs
  cases jget fields (pyOf "timestamp") with
  | none => rfl
  | some ts =>
    cases ts with
    | null => rfl
    | _ =>
      by_cases hkey : jhasKey pfields (pyOf "timestamp") = true
      all_goals simp only [hkey, if_true, Bool.false_eq_true, if_false]
      all_goals rw [jget_append, jget_singleton_ne _ _ _ hk]
      all_goals cases jget pfields k <;> rfl

theorem jget_promotePayload_ne_rid (fields pfields : List (PyStr × PyJson)) (k : PyStr)
    (hk : k ≠ pyOf "response_id") :
    jget (promotePayload fields pfields) k = jget (promoteTs fields pfields) k := by
  unfold promotePayload
  cases jget fields (pyOf "id") with
  | none => rfl
  | some rid =>
    by_cases ht : jtruthy rid = true
    · by_cases hkey : jhasKey (promoteTs fields pfields) (pyOf "response_id") = true
      · simp only [ht, hkey, if_true]
      · simp only [ht, hkey, if_true, Bool.false_eq_true, if_false]
        rw [jget_append, jget_singleton_ne _ _ _ hk]
        cases jget (promoteTs fields pfields) k <;> rfl
    · simp only [ht, Bool.false_eq_true, if_false]

theorem jget_promoteTs_ts (fields pfields : List (PyStr × PyJson)) :
    jget (promoteTs fields pfields) (pyOf "timestamp") =
      if jhasKey pfields (pyOf "timestamp") then jget pfields (pyOf "timestamp")
      else
        match jget fields (pyOf "timestamp") with
        | some PyJson.null => none
        | some ts => some ts
        | none => none := by
  unfold promoteTs
  by_cases hkey : jhasKey pfields (pyOf "timestamp") = true
  · cases hts : jget fields (pyOf "timestamp") with
    | none => simp [hkey]
    | some ts => cases ts <;> simp [hkey]
  · have hnone : jget pfields (pyOf "timestamp") = none := by
      unfold jhasKey at hkey
      cases h : jget pfields (pyOf "timestamp") with
      | none => rfl
      | some v => rw [h] at hkey; simp at hkey
    cases hts : jget fields (pyOf "timestamp") with
    | none => simp [hkey, hnone]
    | some ts =>
      cases ts with
      | null => simp [hkey, hnone]
      | _ =>
        simp only [hkey, Bool.false_eq_true, if_false]
        rw [jget_append, hnone]
        simp [jget]

theorem jget_promotePayload_rid (fields pfields : List (PyStr × PyJson)) :
    jget (promotePayload fields pfields) (pyOf "response_id") =
      if jhasKey pfields (pyOf "response_id") then jget pfields (pyOf "response_id")
      else
        match jget fields (pyOf "id") with
        | some rid => if jtruthy rid = true then some rid else none
        | none => none := by
  have hbase : jget (promoteTs fields pfields) (pyOf "response_id") =
      jget pfields (pyOf "response_id") :=
    jget_promoteTs_ne_ts fields pfields _ (by decide)
  have hkeys : jhasKey (promoteTs fields pfields) (pyOf "response_id") =
      jhasKey pfields (pyOf "response_id") := by
    unfold jhasKey; rw [hbase]
  unfold promotePayload
  by_cases hkey : jhasKey pfields (pyOf "response_id") = true
  · have hkey' := hkeys.trans hkey
    cases jget fields (pyOf "id") with
    | none => simp [hkey, hbase]
    | some rid =>
      by_cases ht : jtruthy rid = true
      · simp [ht, hkey', hkey, hbase]
      · simp [ht, hkey, hbase]
  · have hnone : jget pfields (pyOf "response_id") = none := by
      unfold jhasKey at hkey
      cases h : jget pfields (pyOf "response_id") with
      | none => rfl
      | some v => rw [h] at hkey; simp at hkey
    have hkey' : jhasKey (promoteTs fields pfields) (pyOf "response_id") = false := by
      rw [hkeys]; exact eq_false_of_ne_true hkey
    cases jget fields (pyOf "id") with
    | none => simp [hkey, hbase, hnone]
    | some rid =>
      by_cases ht : jtruthy rid = true
      · simp only [ht, if_true, hkey', Bool.false_eq_true, if_false,
          eq_false_of_ne_true hkey]
        rw [jget_append, hbase, hnone]
        simp [jget]
      · simp [ht, hkey, hbase, hnone]

theorem extract_obj_eq (fields : List (PyStr × PyJson)) :
    extract_message_from_obj (PyJson.obj fields) =
      if isMessageTag (jget fields (pyOf "type")) then some (PyJson.obj fields)
      else
        match jget fields (pyOf "payload") with
        | some (PyJson.obj pfields) =>
          if isMessageTag (jget pfields (pyOf "type")) then
            some (PyJson.obj (promotePayload fields pfields))
          else none
        | _ => none := rfl

theorem hasTop_obj_eq (fields : List (PyStr × PyJson)) :
    hasTopLevelMessageType (PyJson.obj fields) = isMessageTag (jget fields (pyOf "type")) := rfl

theorem hasPayload_obj_eq (fields : List (PyStr × PyJson)) :
    hasMessagePayload (PyJson.obj fields) =
      (match jget fields (pyOf "payload") with
       | some (PyJson.obj pfields) => isMessageTag (jget pfields (pyOf "type"))
       | _ => false) := rfl

/-- Claim C6 (amended): `extract_message_from_obj` returns a message exactly
when the record's top-level `type` equals `"message"` or its `payload` is an
object whose `type` equals `"message"`.  In the payload case the payload
becomes the message; the outer `timestamp` is inherited only when it is
present and not `null`, and the outer `id` is stored as `response_id` only
when it is truthy — each only when the key is absent on the payload. -/
theorem c6_extract_message_characterization (j : PyJson) :
    ((extract_message_from_obj j).isSome = true ↔
      (hasTopLevelMessageType j = true ∨ hasMessagePayload j = true)) ∧
    (hasTopLevelMessageType j = true → extract_message_from_obj j = some j) ∧
    (∀ fields pfields,
      hasTopLevelMessageType j = false →
      j = PyJson.obj fields →
      jget fields (pyOf "payload") = some (PyJson.obj pfields) →
      isMessageTag (jget pfields (pyOf "type")) = true →
      extract_message_from_obj j = some (PyJson.obj (promotePayload fields pfields)) ∧
      jget (promotePayload fields pfields) (pyOf "timestamp") =
        (if jhasKey pfields (pyOf "timestamp") then jget pfields (pyOf "timestamp")
         else
           match jget fields (pyOf "timestamp") with
           | some PyJson.null => none
           | some ts => some ts
           | none => none) ∧
      jget (promotePayload fields pfields) (pyOf "response_id") =
        (if jhasKey pfields (pyOf "response_id") then jget pfields (pyOf "response_id")
         else
           match jget fields (pyOf "id") with
           | some rid => if jtruthy rid = true then some rid else none
           | none => none) ∧
      (∀ k, k ≠ pyOf "timestamp" → k ≠ pyOf "response_id" →
        jget (promotePayload fields pfields) k = jget pfields k)) := by
  refine ⟨?_, ?_, ?_⟩
  · cases j with
    | obj fields =>
      rw [extract_obj_eq, hasTop_obj_eq, hasPayload_obj_eq]
      by_cases htag : isMessageTag (jget fields (pyOf "type")) = true
      · rw [if_pos htag]
        exact ⟨fun _ => Or.inl htag, fun _ => rfl⟩
      · rw [if_neg htag]
        cases hp : jget fields (pyOf "payload") with
        | none => simp [htag]
        | some p =>
          cases p with
          | obj pfields =>
            by_cases hptag : isMessageTag (jget pfields (pyOf "type")) = true
            · simp [htag, hptag]
            · simp [htag, hptag]
          | _ => simp [htag]
    | null => simp [extract_message_from_obj, hasTopLevelMessageType, hasMessagePayload]
    | bool b => simp [extract_message_from_obj, hasTopLevelMessageType, hasMessagePayload]
    | num q => simp [extract_message_from_obj, hasTopLevelMessageType, hasMessagePayload]
    | str s => simp [extract_message_from_obj, hasTopLevelMessageType, hasMessagePayload]
    | arr l => simp [extract_message_from_obj, hasTopLevelMessageType, hasMessagePayload]
  · intro h
    cases j with
    | obj fields =>
      rw [hasTop_obj_eq] at h
      rw [extract_obj_eq, if_pos h]
    | null => simp [hasTopLevelMessageType] at h
    | bool b => simp [hasTopLevelMessageType] at h
    | num q => simp [hasTopLevelMessageType] at h
    | str s => simp [hasTopLevelMessageType] at h
    | arr l => simp [hasTopLevelMessageType] at h
  · intro fields pfields htop hj hp hptag
    subst hj
    rw [hasTop_obj_eq] at htop
    refine ⟨?_, ?_, jget_promotePayload_rid fields pfields, ?_⟩
    · rw [extract_obj_eq, if_neg (by simp [htop]), hp]
      simp [hptag]
    · rw [jget_promotePayload_ne_rid fields pfields _ (by decide)]
      exact jget_promoteTs_ts fields pfields
    · intro k hk1 hk2
      rw [jget_promotePayload_ne_rid fields pfields k hk2,
        jget_promoteTs_ne_ts fields pfields k hk1]

/-- A session record whose payload is a message and whose outer
`timestamp` field is present with value `null`. -/
def c6Record : PyJson :=
  PyJson.obj [(pyOf "payload", PyJson.obj [(pyOf "type", PyJson.str (pyOf "message"))]),
              (pyOf "timestamp", PyJson.null)]

/-- Counterexample to claim C6 as stated: the outer record carries a
`timestamp` field (with value `null`) and the payload lacks one, yet the
promoted message does not inherit it — the code skips values that are
Python `None`, while the claim requires inheritance whenever the field is
absent on the payload. -/
theorem c6_counterexample_null_timestamp :
    extract_message_from_obj c6Record =
      some (PyJson.obj [(pyOf "type", PyJson.str (pyOf "message"))]) ∧
    jhasKey [(pyOf "payload", PyJson.obj [(pyOf "type", PyJson.str (pyOf "message"))]),
             (pyOf "timestamp", PyJson.null)] (pyOf "timestamp") = true ∧
    jhasKey [(pyOf "type", PyJson.str (pyOf "message"))] (pyOf "timestamp") = false :=
  ⟨rfl, rfl, rfl⟩

theorem isSome_of_isMessageTag (o : Option PyJson) (h : isMessageTag o = true) :
    o.isSome = true := by
  cases o with
  | none => simp [isMessageTag] at h
  | some v => rfl

theorem extract_message_truthy (j m : PyJson)
    (h : extract_message_from_obj j = some m) : jtruthy m = true := by
  cases j with
  | obj fields =>
    rw [extract_obj_eq] at h
    by_cases htag : isMessageTag (jget fields (pyOf "type")) = true
    · rw [if_pos htag] at h
      cases h
      have hne : fields ≠ [] :=
        jget_nonempty fields (pyOf "type") (isSome_of_isMessageTag _ htag)
      simpa [jtruthy, List.isEmpty_iff] using hne
    · rw [if_neg htag] at h
      cases hp : jget fields (pyOf "payload") with
      | none => rw [hp] at h; simp at h
      | some p =>
        cases p with
        | obj pfields =>
          rw [hp] at h
          dsimp only at h
          by_cases hptag : isMessageTag (jget pfields (pyOf "type")) = true
          · rw [if_pos hptag] at h
            cases h
            have hne : pfields ≠ [] :=
              jget_nonempty pfields (pyOf "type") (isSome_of_isMessageTag _ hptag)
            have := promotePayload_ne_nil fields pfields hne
            simpa [jtruthy, List.isEmpty_iff] using this
          · rw [if_neg hptag] at h; simp at h
        | null => rw [hp] at h; simp at h
        | bool b => rw [hp] at h; simp at h
        | num q => rw [hp] at h; simp at h
        | str s => rw [hp] at h; simp at h
        | arr l => rw [hp] at h; simp at h
  | null => simp [extract_message_from_obj] at h
  | bool b => simp [extract_message_from_obj] at h
  | num q => simp [extract_message_from_obj] at h
  | str s => simp [extract_message_from_obj] at h
  | arr l => simp [extract_message_from_obj] at h

/-- A line that parsed as JSON (neither blank nor malformed). -/
def isParsedLine : SessLine → Bool
  | SessLine.val _ => true
  | _ => false

/-- A well-formed message line: a parsed line whose record extracts to a
message (counting promoted payload messages). -/
def isMessageLine : SessLine → Bool
  | SessLine.val j => (extract_message_from_obj j).isSome
  | _ => false

theorem iter_messages_cons_val (j : PyJson) (t : List SessLine) :
    iter_messages (SessLine.val j :: t) =
      (match extract_message_from_obj j with
       | some m => m :: iter_messages t
       | none => iter_messages t) := by
  cases hm : extract_message_from_obj j with
  | none => simp [iter_messages, iter_jsonl, hm]
  | some m =>
    have ht := extract_message_truthy j m hm
    simp [iter_messages, iter_jsonl, hm, ht]

theorem iter_messages_cons_skip (l : SessLine) (t : List SessLine)
    (h : isParsedLine l = false) :
    iter_messages (l :: t) = iter_messages t := by
  cases l with
  | blank => simp [iter_messages, iter_jsonl]
  | malformed => simp [iter_messages, iter_jsonl]
  | val j => simp [isParsedLine] at h

/-- Claim C7: `iter_messages` is total on files containing malformed JSON
lines (blank and unparsable lines are skipped, never raised on — the
second conjunct: deleting them does not change the output), and the
number of messages yielded equals the number of well-formed message
lines, counting promoted payload messages. -/
theorem c7_iter_messages_count (lines : List SessLine) :
    (iter_messages lines).length = lines.countP isMessageLine ∧
    iter_messages lines = iter_messages (lines.filter isParsedLine) := by
  constructor
  · induction lines with
    | nil => rfl
    | cons l t ih =>
      cases l with
      | blank =>
        rw [iter_messages_cons_skip SessLine.blank t rfl, List.countP_cons]
        simpa [isMessageLine] using ih
      | malformed =>
        rw [iter_messages_cons_skip SessLine.malformed t rfl, List.countP_cons]
        simpa [isMessageLine] using ih
      | val j =>
        rw [iter_messages_cons_val, List.countP_cons]
        cases hm : extract_message_from_obj j with
        | none => simpa [isMessageLine, hm] using ih
        | some m => simpa [isMessageLine, hm] using ih
  · induction lines with
    | nil => rfl
    | cons l t ih =>
      cases l with
      | blank =>
        rw [iter_messages_cons_skip SessLine.blank t rfl]
        simpa [isParsedLine] using ih
      | malformed =>
        rw [iter_messages_cons_skip SessLine.malformed t rfl]
        simpa [isParsedLine] using ih
      | val j =>
        rw [List.filter_cons_of_pos (by rfl), iter_messages_cons_val, iter_messages_cons_val]
        cases hm : extract_message_from_obj j with
        | none => simpa [hm] using ih
        | some m => simpa [hm] using ih

/-- Witness for claim C6's amended theorem, exercising the payload branch
at a concrete record with a truthy outer `id`. -/
theorem c6_witness :
    extract_message_from_obj
        (PyJson.obj [(pyOf "payload", PyJson.obj [(pyOf "type", PyJson.str (pyOf "message"))]),
                     (pyOf "id", PyJson.str (pyOf "resp-7"))]) =
      some (PyJson.obj [(pyOf "type", PyJson.str (pyOf "message")),
                        (pyOf "response_id", PyJson.str (pyOf "resp-7"))]) :=
  ((c6_extract_message_characterization
      (PyJson.obj [(pyOf "payload", PyJson.obj [(pyOf "type", PyJson.str (pyOf "message"))]),
                   (pyOf "id", PyJson.str (pyOf "resp-7"))])).2.2
    [(pyOf "payload", PyJson.obj [(pyOf "type", PyJson.str (pyOf "message"))]),
     (pyOf "id", PyJson.str (pyOf "resp-7"))]
    [(pyOf "type", PyJson.str (pyOf "message"))]
    rfl rfl rfl rfl).1

/-- Witness for claim C9's theorem at the spec's own test vector. -/
theorem c9_witness :
    slugify (slugify (pyOf "Hello, World!")) = slugify (pyOf "Hello, World!") ∧
    pyIsUpper 'h' = false :=
  ⟨(c9_slugify_idempotent_wellformed (pyOf "Hello, World!") (by unfold pyAscii; decide)).1,
   (c9_slugify_idempotent_wellformed (pyOf "Hello, World!") (by unfold pyAscii; decide)).2.2.1 'h'
     (by decide)⟩

/-! ### Embedding of prompts.py -/

/-- Count of non-overlapping occurrences of the two-character pattern
`a b`, modelling Python `str.count` on a two-character needle. -/
def countDoubled (a b : Char) : PyStr → Nat
  | c1 :: c2 :: rest =>
    if c1 = a ∧ c2 = b then countDoubled a b rest + 1
    else countDoubled a b (c2 :: rest)
  | _ => 0

/-- Occurrence test for the two-character pattern `a b`, modelling Python
`needle in content` for a two-character needle. -/
def hasDoubled (a b : Char) : PyStr → Bool
  | c1 :: c2 :: rest => (c1 = a && c2 = b) || hasDoubled a b (c2 :: rest)
  | _ => false

/-- Embedding of `prompts.PromptDocument`. -/
structure PromptDocument where
  content : PyStr
  path : FsPath

inductive PromptError where
  | mismatchedBraces
  | noPlaceholders

/-- Embedding of `PromptLoader._validate`: raise on a `{{` / `}}` count
mismatch, then on the absence of any `{{`. -/
def validatePrompt (content : PyStr) : Except PromptError Unit :=
  let openTokens := countDoubled '{' '{' content
  let closeTokens := countDoubled '}' '}' content
  if openTokens ≠ closeTokens then Except.error PromptError.mismatchedBraces
  else if !hasDoubled '{' '{' content then Except.error PromptError.noPlaceholders
  else Except.ok ()

/-- Embedding of the validating tail of `PromptLoader.load`, given the
resolved template path and the file's content. -/
def promptLoadContent (content : PyStr) (path : FsPath) : Except PromptError PromptDocument :=
  match validatePrompt content with
  | Except.ok _ => Except.ok (PromptDocument.mk content path)
  | Except.error e => Except.error e

/-- Formalization of claim C8's wording, for the refutation: the content
contains at least one `{{ }}`-style placeholder pair, i.e. an occurrence
of `{{` followed later by `}}`. -/
def specPlaceholderPair : PyStr → Bool
  | c1 :: c2 :: rest =>
    ((c1 = '{' && c2 = '{') && hasDoubled '}' '}' rest) || specPlaceholderPair (c2 :: rest)
  | _ => false

/-- Counterexample to claim C8 as stated: the template `"}}{{"` contains no
`{{ }}`-style placeholder pair (no `{{` is followed by a `}}`), yet
validation accepts it, because the code only compares the counts of `{{`
and `}}` and requires some `{{`. -/
theorem c8_counterexample_unordered_braces :
    validatePrompt (pyOf "\x7d\x7d\x7b\x7b") = Except.ok () ∧
    specPlaceholderPair (pyOf "\x7d\x7d\x7b\x7b") = false := ⟨rfl, rfl⟩

/-- Claim C8 (amended): loading a prompt template fails with a
`PromptValidationError` at load time unless the content has equally many
`{{` and `}}` substrings and at least one `{{` (an opener need not precede
a closer); a template passing validation is never rejected by the load
step afterwards. -/
theorem c8_validate_characterization (content : PyStr) (path : FsPath) :
    (validatePrompt content = Except.ok () ↔
      (countDoubled '{' '{' content = countDoubled '}' '}' content ∧
       hasDoubled '{' '{' content = true)) ∧
    (validatePrompt content = Except.ok () →
      promptLoadContent content path = Except.ok (PromptDocument.mk content path)) := by
  constructor
  · unfold validatePrompt
    by_cases hne : countDoubled '{' '{' content ≠ countDoubled '}' '}' content
    · rw [if_pos hne]
      constructor
      · intro h; exact absurd h (by simp)
      · intro ⟨h1, _⟩; exact absurd h1 hne
    · rw [if_neg hne]
      push_neg at hne
      by_cases hh : hasDoubled '{' '{' content = true
      · simp [hh, hne]
      · simp [hh, hne]
  · intro h
    unfold promptLoadContent
    rw [h]

/-- Witness for claim C8's amended theorem at a concrete valid template. -/
theorem c8_witness :
    promptLoadContent (pyOf "Summarize \x7b\x7btranscript\x7d\x7d.") [] =
      Except.ok (PromptDocument.mk (pyOf "Summarize \x7b\x7btranscript\x7d\x7d.") []) :=
  (c8_validate_characterization (pyOf "Summarize \x7b\x7btranscript\x7d\x7d.") []).2 rfl

/-! ### Embedding of the storage codec (storage.py)

The YAML layer (`yaml.safe_dump` with `sort_keys=True` / `yaml.safe_load`)
is an external library; it is modelled as a sorted `key: value` line codec.
Scalar string values render bare; a front-matter text that does not parse
as such a mapping models the non-mapping `ValueError` branch of the
source. -/

/-- Metadata mappings: association lists of keys to JSON values (the
model of the Python dict passed to `write_summary`). -/
abbrev Metadata := List (PyStr × PyJson)

/-- Python `s.endswith("\n")`. -/
def endsWithNL (s : PyStr) : Bool := s.getLast? == some '\n'

/-- The `body if body.endswith("\n") else f"{body}\n"` normalization. -/
def ensureNL (s : PyStr) : PyStr := if endsWithNL s then s else s ++ ['\n']

/-- The line-boundary characters of Python `str.splitlines`: newline,
carriage return, vertical tab, form feed, the file/group/record
separators, NEL, and the Unicode line/paragraph separators. -/
def pyIsLineBreak (c : Char) : Bool :=
  c = '\n' || c = '\r' || c = '\x0b' || c = '\x0c' ||
  c = '\x1c' || c = '\x1d' || c = '\x1e' || c = '\x85' ||
  c = '\u2028' || c = '\u2029'

/-- Model of Python `str.splitlines`: a line ends at every line-boundary
character, `"\r\n"` counts as a single boundary, and a trailing segment
without a terminator still forms a line. -/
def pySplitlines : PyStr → List PyStr
  | [] => []
  | [c] => if pyIsLineBreak c then [[]] else [[c]]
  | c :: d :: rest =>
    if pyIsLineBreak c then
      if c = '\r' ∧ d = '\n' then [] :: pySplitlines rest
      else [] :: pySplitlines (d :: rest)
    else
      match pySplitlines (d :: rest) with
      | [] => [[c]]
      | l :: ls => (c :: l) :: ls

/-- Newline-only line splitting: the behaviour of `str.splitlines` on
text whose only line-boundary character is `'\n'`. -/
def splitLinesNL (s : PyStr) : List PyStr :=
  if s = [] then []
  else if endsWithNL s then (s.splitOn '\n').dropLast
  else s.splitOn '\n'

/-- The universal-newline translation applied by text-mode reads
(`Path.read_text`): `"\r\n"` and `"\r"` both become `"\n"`. -/
def universalNewlines : PyStr → PyStr
  | [] => []
  | [c] => if c = '\r' then ['\n'] else [c]
  | c :: d :: rest =>
    if c = '\r' then
      if d = '\n' then '\n' :: universalNewlines rest
      else '\n' :: universalNewlines (d :: rest)
    else c :: universalNewlines (d :: rest)

/-- Newline-clean strings: every line-boundary character is `'\n'`.  On
these, newline translation is the identity and `str.splitlines` splits on
`'\n'` alone. -/
def nlClean (s : PyStr) : Prop :=
  ∀ c ∈ s, pyIsLineBreak c = true → c = '\n'

/-- Strict lexicographic comparison of strings by character code. -/
def pyStrLt : PyStr → PyStr → Bool
  | [], [] => false
  | [], _ :: _ => true
  | _ :: _, [] => false
  | c1 :: t1, c2 :: t2 => if c1 = c2 then pyStrLt t1 t2 else decide (c1 < c2)

/-- Non-strict lexicographic comparison of strings by character code. -/
def pyStrLe : PyStr → PyStr → Bool
  | [], _ => true
  | _ :: _, [] => false
  | c1 :: t1, c2 :: t2 => if c1 = c2 then pyStrLe t1 t2 else decide (c1 < c2)

/-- Insertion step of the key sort performed by `sort_keys=True`. -/
def insertByKey (kv : PyStr × PyJson) : Metadata → Metadata
  | [] => [kv]
  | kv' :: rest =>
    if pyStrLe kv.1 kv'.1 then kv :: kv' :: rest else kv' :: insertByKey kv rest

/-- Key sort performed by `yaml.safe_dump(..., sort_keys=True)`. -/
def sortByKey : Metadata → Metadata
  | [] => []
  | kv :: rest => insertByKey kv (sortByKey rest)

mutual
/-- Single-line rendering of a JSON value in the YAML model; nested
containers render in flow style.  Only bare scalar strings participate in
the round-trip fragment. -/
def yamlRenderVal : PyJson → PyStr
  | PyJson.null => pyOf "null"
  | PyJson.bool true => pyOf "true"
  | PyJson.bool false => pyOf "false"
  | PyJson.num q => pyOf (toString q)
  | PyJson.str s => s
  | PyJson.arr l => pyOf "[" ++ yamlRenderList l ++ pyOf "]"
  | PyJson.obj f => pyOf "\x7b" ++ yamlRenderFields f ++ pyOf "\x7d"

/-- Flow rendering of array elements. -/
def yamlRenderList : List PyJson → PyStr
  | [] => []
  | [x] => yamlRenderVal x
  | x :: xs => yamlRenderVal x ++ pyOf ", " ++ yamlRenderList xs

/-- Flow rendering of object fields. -/
def yamlRenderFields : List (PyStr × PyJson) → PyStr
  | [] => []
  | (k, v) :: xs =>
    k ++ pyOf ": " ++ yamlRenderVal v ++
      (if xs.isEmpty then [] else pyOf ", ") ++ yamlRenderFields xs
end

/-- One dumped line of the YAML model: `key: value`. -/
def yamlDumpLine (kv : PyStr × PyJson) : PyStr :=
  kv.1 ++ pyOf ": " ++ yamlRenderVal kv.2

/-- Model of `yaml.safe_dump(meta, sort_keys=True)` before the `.strip()`
applied by `write_summary`. -/
def yamlDumpRaw (meta : Metadata) : PyStr :=
  List.intercalate ['\n'] ((sortByKey meta).map yamlDumpLine)

/-- Parse one `key: value` line of the YAML model. -/
def parseYamlLine (line : PyStr) : Option (PyStr × PyJson) :=
  let k := line.takeWhile (fun c => c ≠ ':')
  match line.drop k.length with
  | ':' :: ' ' :: v => some (k, PyJson.str v)
  | _ => none

/-- Model of `yaml.safe_load` on front-matter text: a mapping when every
line parses as `key: value`, otherwise `none` (a non-mapping or
unparseable document).  The document here is always a `'\n'`-joined line
block free of other boundary characters, so newline-only splitting is
exact. -/
def yamlLoadModel (text : PyStr) : Option Metadata :=
  (splitLinesNL text).mapM parseYamlLine

/-- Embedding of the serialization performed by `storage.write_summary`:
the file content written for a body and a metadata mapping.  Text-mode
writes are modelled on POSIX, where `os.linesep` is `"\n"` and
`write_text` emits the string unchanged. -/
def writeSummaryContent (body : PyStr) (meta : Metadata) : PyStr :=
  let front_matter := pyStrip (yamlDumpRaw meta)
  let sections : List PyStr :=
    if meta.isEmpty then []
    else [pyOf "---" ++ '\n' :: front_matter ++ '\n' :: pyOf "---"]
  let body2 := ensureNL body
  let sections2 := if sections.isEmpty then [body2] else sections ++ [[], body2]
  List.intercalate ['\n'] sections2

/-- Embedding of `storage._split_front_matter`.  Indices are taken
relative to the line list after the opening delimiter (`lines[1:idx]`
becomes `rest.take i` with `idx = i + 1`).  The `Except.error` value is
the `ValueError` raised when the front matter is not a mapping. -/
def splitFrontMatter (content : PyStr) : Except Unit (Metadata × PyStr) :=
  let lines := pySplitlines content
  match lines with
  | [] => Except.ok ([], content)
  | first :: rest =>
    if pyStrip first ≠ pyOf "---" then Except.ok ([], content)
    else
      match rest.findIdx? (fun l => pyStrip l == pyOf "---") with
      | some i =>
        let front_matter_lines := rest.take i
        let body_lines := rest.drop (i + 1)
        let front_matter_text := pyStrip (List.intercalate ['\n'] front_matter_lines)
        match (if front_matter_text = [] then some ([] : Metadata)
               else yamlLoadModel front_matter_text) with
        | none => Except.error ()
        | some metadata =>
          let body := List.intercalate ['\n'] body_lines
          Except.ok (metadata,
            if body ≠ [] ∧ ¬ (endsWithNL body = true) then body ++ ['\n'] else body)
      | none => Except.ok ([], ensureNL content)

/-- Embedding of `storage.load_summary` on the raw file text: a text-mode
read applies the universal-newline translation before the front matter is
split. -/
def load_summary (raw : PyStr) : Except Unit (Metadata × PyStr) :=
  splitFrontMatter (universalNewlines raw)

/-- Strip every trailing newline (the coarsest trailing-newline
normalization, used to state the round-trip quotient). -/
def dropTrailingNLs (s : PyStr) : PyStr :=
  (s.reverse.dropWhile (fun c => c = '\n')).reverse

/-! ### Support lemmas for the storage round-trip -/

theorem dropWhile_eq_self_of_head {α : Type} (p : α → Bool) (l : List α)
    (h : ∀ c, l.head? = some c → p c = false) : l.dropWhile p = l := by
  cases l with
  | nil => rfl
  | cons a t => rw [List.dropWhile_cons, h a rfl]; simp

theorem pyStrip_eq_self_of_edges (s : PyStr)
    (h1 : ∀ c, s.head? = some c → pyIsSpace c = false)
    (h2 : ∀ c, s.getLast? = some c → pyIsSpace c = false) : pyStrip s = s := by
  unfold pyStrip
  rw [dropWhile_eq_self_of_head _ _ h1,
    dropWhile_eq_self_of_head _ _ (fun c hc => h2 c (by rwa [List.head?_reverse] at hc)),
    List.reverse_reverse]

theorem splitOn_cons_sep {α : Type} [DecidableEq α] (x : α) (b : List α) :
    (x :: b).splitOn x = [] :: b.splitOn x := by
  show (x :: b).splitOnP (fun a => a == x) = _
  rw [List.splitOnP_cons, if_pos (by simp)]
  rfl

theorem splitOn_concat_sep {α : Type} [DecidableEq α] (x : α) (t : List α) :
    (t ++ [x]).splitOn x = t.splitOn x ++ [[]] := by
  have := splitOn_append_sep x t ([] : List α)
  simpa [List.splitOn] using this

theorem eq_dropLast_concat_of_endsWithNL (s : PyStr) (h : endsWithNL s = true) :
    s = s.dropLast ++ ['\n'] := by
  unfold endsWithNL at h
  have hne : s ≠ [] := by
    intro hs; subst hs; simp at h
  have hlast : s.getLast hne = '\n' := by
    have := List.getLast?_eq_getLast s hne
    rw [this] at h
    simpa using h
  conv_lhs => rw [← List.dropLast_append_getLast hne]
  rw [hlast]

theorem splitLinesNL_of_endsWithNL (s : PyStr) (h : endsWithNL s = true) :
    splitLinesNL s = s.dropLast.splitOn '\n' := by
  have hne : s ≠ [] := by
    intro hs; subst hs; simp [endsWithNL] at h
  unfold splitLinesNL
  rw [if_neg hne, if_pos h]
  conv_lhs => rw [eq_dropLast_concat_of_endsWithNL s h]
  rw [splitOn_concat_sep, List.dropLast_concat]

theorem intercalate_head? {α : Type} (sep a : List α) (t : List (List α)) (h : a ≠ []) :
    (List.intercalate sep (a :: t)).head? = a.head? := by
  cases t with
  | nil => rw [intercalate_single]
  | cons b t' =>
    rw [intercalate_cons_cons]
    cases a with
    | nil => exact absurd rfl h
    | cons c r => simp

theorem intercalate_concat_getLast? {α : Type} (sep : List α)
    (a : List α) (ha : a ≠ []) :
    ∀ ls : List (List α),
      (List.intercalate sep (ls ++ [a])).getLast? = a.getLast? ∧
      List.intercalate sep (ls ++ [a]) ≠ [] := by
  intro ls
  induction ls with
  | nil =>
    rw [List.nil_append, intercalate_single]
    exact ⟨rfl, ha⟩
  | cons b t ih =>
    have hne : t ++ [a] ≠ [] := by simp
    cases hc : t ++ [a] with
    | nil => exact absurd hc hne
    | cons c r =>
      rw [List.cons_append, hc, intercalate_cons_cons, ← hc]
      obtain ⟨ih1, ih2⟩ := ih
      have hla : ∃ la, a.getLast? = some la :=
        Option.isSome_iff_exists.mp (List.getLast?_isSome.mpr ha)
      constructor
      · rw [List.getLast?_append, ih1]
        obtain ⟨la, hla⟩ := hla
        rw [hla]
        rfl
      · intro h
        apply ih2
        simp only [List.append_eq_nil] at h
        exact h.2

theorem findIdx?_append_first {α : Type} (p : α → Bool) (xs : List α) (y : α)
    (ys : List α) (hxs : ∀ x ∈ xs, p x = false) (hy : p y = true) :
    ∀ i, List.findIdx? p (xs ++ y :: ys) i = some (i + xs.length) := by
  induction xs with
  | nil =>
    intro i
    rw [List.nil_append, List.findIdx?_cons, if_pos hy]
    simp
  | cons x t ih =>
    intro i
    rw [List.cons_append, List.findIdx?_cons,
      if_neg (by rw [hxs x (List.mem_cons_self _ _)]; simp)]
    rw [ih (fun z hz => hxs z (List.mem_cons_of_mem _ hz)) (i + 1)]
    congr 1
    simp only [List.length_cons]
    omega

theorem takeWhile_append_stop {α : Type} (p : α → Bool) (k : List α) (c : α)
    (rest : List α) (hk : ∀ x ∈ k, p x = true) (hc : p c = false) :
    (k ++ c :: rest).takeWhile p = k := by
  induction k with
  | nil => rw [List.nil_append, List.takeWhile_cons, hc]; simp
  | cons x t ih =>
    rw [List.cons_append, List.takeWhile_cons, hk x (List.mem_cons_self _ _)]
    simp only [if_true]
    rw [ih (fun z hz => hk z (List.mem_cons_of_mem _ hz))]

theorem pyStrLe_of_pyStrLt (a : PyStr) : ∀ b, pyStrLt a b = true → pyStrLe a b = true := by
  induction a with
  | nil => intro b _; cases b <;> rfl
  | cons c1 t1 ih =>
    intro b h
    cases b with
    | nil => simp [pyStrLt] at h
    | cons c2 t2 =>
      unfold pyStrLt at h
      unfold pyStrLe
      by_cases hc : c1 = c2
      · rw [if_pos hc] at h ⊢
        exact ih t2 h
      · rw [if_neg hc] at h ⊢
        exact h

/-- Keys strictly sorted: the canonical representation of a Python dict
in the association-list model. -/
def sortedKeys (meta : Metadata) : Prop :=
  List.Chain' (fun a b => pyStrLt a.1 b.1 = true) meta

theorem insertByKey_of_lt_head (kv : PyStr × PyJson) (rest : Metadata)
    (h : ∀ kv', rest.head? = some kv' → pyStrLt kv.1 kv'.1 = true) :
    insertByKey kv rest = kv :: rest := by
  cases rest with
  | nil => rfl
  | cons kv' r =>
    unfold insertByKey
    rw [if_pos (pyStrLe_of_pyStrLt _ _ (h kv' rfl))]

theorem sortByKey_eq_self (meta : Metadata) (h : sortedKeys meta) :
    sortByKey meta = meta := by
  induction meta with
  | nil => rfl
  | cons kv rest ih =>
    unfold sortByKey
    rw [ih (List.Chain'.tail h)]
    apply insertByKey_of_lt_head
    intro kv' hkv'
    cases rest with
    | nil => simp at hkv'
    | cons kv2 r =>
      simp only [List.head?_cons, Option.some.injEq] at hkv'
      subst hkv'
      exact (List.chain'_cons.mp h).1

/-- Plain scalar strings of the YAML model fragment: non-empty, free of
whitespace, of `:`, and of every line-boundary character. -/
def plainScalar (s : PyStr) : Prop :=
  s ≠ [] ∧ ∀ c ∈ s, pyIsSpace c = false ∧ c ≠ ':' ∧ pyIsLineBreak c = false

theorem parseYamlLine_dump (k s : PyStr) (hk : plainScalar k) :
    parseYamlLine (yamlDumpLine (k, PyJson.str s)) = some (k, PyJson.str s) := by
  unfold parseYamlLine yamlDumpLine
  have htw : (k ++ pyOf ": " ++ yamlRenderVal (PyJson.str s)).takeWhile
      (fun c => decide (c ≠ ':')) = k := by
    rw [List.append_assoc]
    exact takeWhile_append_stop _ k ':' (' ' :: s)
      (fun x hx => by simpa using (hk.2 x hx).2.1) (by simp)
  simp only [htw]
  rw [List.append_assoc, List.drop_left]
  rfl

theorem mapM_parseYamlLine_dump (meta : Metadata)
    (hall : ∀ kv ∈ meta, plainScalar kv.1 ∧ ∃ s, kv.2 = PyJson.str s) :
    (meta.map yamlDumpLine).mapM parseYamlLine = some meta := by
  induction meta with
  | nil => rfl
  | cons kv rest ih =>
    obtain ⟨hk, s, hs⟩ := hall kv (List.mem_cons_self _ _)
    rw [List.map_cons, List.mapM_cons]
    have h1 : parseYamlLine (yamlDumpLine kv) = some kv := by
      obtain ⟨k, v⟩ := kv
      simp only at hs
      subst hs
      exact parseYamlLine_dump k s hk
    rw [h1, ih (fun z hz => hall z (List.mem_cons_of_mem _ hz))]
    rfl

/-- Well-formed metadata mappings for the YAML model fragment: strictly
sorted keys (the canonical dict representation) and plain scalar string
keys and values. -/
def wfMetadata (meta : Metadata) : Prop :=
  sortedKeys meta ∧
  ∀ kv ∈ meta, plainScalar kv.1 ∧ ∃ s, kv.2 = PyJson.str s ∧ plainScalar s

theorem ensureNL_ne_nil (s : PyStr) : ensureNL s ≠ [] := by
  unfold ensureNL
  by_cases h : endsWithNL s = true
  · rw [if_pos h]
    intro hs
    subst hs
    simp [endsWithNL] at h
  · rw [if_neg h]
    simp

theorem endsWithNL_ensureNL (s : PyStr) : endsWithNL (ensureNL s) = true := by
  unfold ensureNL
  by_cases h : endsWithNL s = true
  · rw [if_pos h]; exact h
  · rw [if_neg h]
    unfold endsWithNL
    rw [List.getLast?_concat]
    rfl

theorem endsWithNL_append (x y : PyStr) (h : y ≠ []) :
    endsWithNL (x ++ y) = endsWithNL y := by
  unfold endsWithNL
  rw [List.getLast?_append]
  obtain ⟨c, hc⟩ := Option.isSome_iff_exists.mp (List.getLast?_isSome.mpr h)
  rw [hc]
  rfl

theorem endsWithNL_cons (c : Char) (y : PyStr) (h : y ≠ []) :
    endsWithNL (c :: y) = endsWithNL y := by
  have := endsWithNL_append [c] y h
  simpa using this

theorem yamlDumpLine_facts (kv : PyStr × PyJson)
    (hk : plainScalar kv.1) (hv : ∃ s, kv.2 = PyJson.str s ∧ plainScalar s) :
    yamlDumpLine kv ≠ [] ∧
    ('\n' ∉ yamlDumpLine kv) ∧
    (∀ c, (yamlDumpLine kv).head? = some c → pyIsSpace c = false) ∧
    (∀ c, (yamlDumpLine kv).getLast? = some c → pyIsSpace c = false) ∧
    pyStrip (yamlDumpLine kv) = yamlDumpLine kv ∧
    ((pyStrip (yamlDumpLine kv) == pyOf "---") = false) := by
  obtain ⟨k, v⟩ := kv
  obtain ⟨s, hs, hsp⟩ := hv
  simp only at hs
  subst hs
  have hline : yamlDumpLine (k, PyJson.str s) = k ++ ':' :: ' ' :: s := by
    unfold yamlDumpLine yamlRenderVal
    rw [show pyOf ": " = [':', ' '] from rfl, List.append_assoc]
    rfl
  have hne : k ++ ':' :: ' ' :: s ≠ [] := by
    intro h
    rcases List.append_eq_nil.mp h with ⟨-, h2⟩
    exact List.cons_ne_nil _ _ h2
  have hmem : ('\n' : Char) ∉ k ++ ':' :: ' ' :: s := by
    intro hm
    rcases List.mem_append.mp hm with hm | hm
    · exact absurd (hk.2 '\n' hm).1 (by decide)
    · rcases List.mem_cons.mp hm with hm | hm
      · exact absurd hm (by decide)
      · rcases List.mem_cons.mp hm with hm | hm
        · exact absurd hm (by decide)
        · exact absurd (hsp.2 '\n' hm).1 (by decide)
  have hhead : ∀ c, (k ++ ':' :: ' ' :: s).head? = some c → pyIsSpace c = false := by
    intro c hc
    cases k with
    | nil => exact absurd rfl hk.1
    | cons c0 t =>
      simp only [List.cons_append, List.head?_cons, Option.some.injEq] at hc
      rw [← hc]
      exact (hk.2 c0 (List.mem_cons_self _ _)).1
  have hlast : ∀ c, (k ++ ':' :: ' ' :: s).getLast? = some c → pyIsSpace c = false := by
    intro c hc
    rw [List.getLast?_append] at hc
    have hsne : s ≠ [] := hsp.1
    obtain ⟨cl, hcl⟩ := Option.isSome_iff_exists.mp (List.getLast?_isSome.mpr hsne)
    have h2 : (':' :: ' ' :: s).getLast? = some cl := by
      have : (':' :: ' ' :: s) = [':', ' '] ++ s := rfl
      rw [this, List.getLast?_append, hcl]
      rfl
    rw [h2] at hc
    simp only [Option.or_some, Option.some.injEq] at hc
    subst hc
    have : cl ∈ s := by
      cases s with
      | nil => exact absurd rfl hsne
      | cons x r =>
        have := List.getLast?_eq_getLast (x :: r) (by simp)
        rw [this] at hcl
        simp only [Option.some.injEq] at hcl
        rw [← hcl]
        exact List.getLast_mem _
    exact (hsp.2 cl this).1
  have hstrip : pyStrip (k ++ ':' :: ' ' :: s) = k ++ ':' :: ' ' :: s :=
    pyStrip_eq_self_of_edges _ hhead hlast
  refine ⟨hline ▸ hne, hline ▸ hmem, hline ▸ hhead, hline ▸ hlast, hline ▸ hstrip, ?_⟩
  rw [hline, hstrip]
  have : k ++ ':' :: ' ' :: s ≠ pyOf "---" := by
    intro h
    have : (':' : Char) ∈ pyOf "---" := by
      rw [← h]
      exact List.mem_append.mpr (Or.inr (List.mem_cons_self _ _))
    exact absurd this (by decide)
  exact beq_eq_false_iff_ne.mpr this

theorem yamlDumpRaw_facts (meta : Metadata) (hwf : wfMetadata meta) (hne : meta ≠ []) :
    pyStrip (yamlDumpRaw meta) = yamlDumpRaw meta ∧
    endsWithNL (yamlDumpRaw meta) = false ∧
    yamlDumpRaw meta ≠ [] ∧
    (yamlDumpRaw meta).splitOn '\n' = meta.map yamlDumpLine ∧
    yamlLoadModel (yamlDumpRaw meta) = some meta := by
  obtain ⟨hsort, hall⟩ := hwf
  have hdump : yamlDumpRaw meta = List.intercalate ['\n'] (meta.map yamlDumpLine) := by
    unfold yamlDumpRaw
    rw [sortByKey_eq_self meta hsort]
  have hlf : ∀ l ∈ meta.map yamlDumpLine, l ≠ [] ∧ ('\n' ∉ l) ∧
      (∀ c, l.head? = some c → pyIsSpace c = false) ∧
      (∀ c, l.getLast? = some c → pyIsSpace c = false) ∧
      pyStrip l = l ∧ ((pyStrip l == pyOf "---") = false) := by
    intro l hl
    obtain ⟨kv, hkv, hkv2⟩ := List.mem_map.mp hl
    obtain ⟨hk, s, hs, hsp⟩ := hall kv hkv
    exact hkv2 ▸ yamlDumpLine_facts kv hk ⟨s, hs, hsp⟩
  have hmlne : meta.map yamlDumpLine ≠ [] := by
    cases meta with
    | nil => exact absurd rfl hne
    | cons a b => simp
  rcases List.eq_nil_or_concat (meta.map yamlDumpLine) with hcon | ⟨L, lb, hcon⟩
  · exact absurd hcon hmlne
  have hconcat : meta.map yamlDumpLine = L ++ [lb] := by
    rw [hcon, List.concat_eq_append]
  have hlb_mem : lb ∈ meta.map yamlDumpLine := by
    rw [hconcat]
    exact List.mem_append.mpr (Or.inr (List.mem_cons_self _ _))
  have hlbne : lb ≠ [] := (hlf lb hlb_mem).1
  obtain ⟨hgl, hine⟩ := intercalate_concat_getLast? ['\n'] lb hlbne L
  have hFMne : yamlDumpRaw meta ≠ [] := by rw [hdump, hconcat]; exact hine
  have hFMlast : (yamlDumpRaw meta).getLast? = lb.getLast? := by
    rw [hdump, hconcat]; exact hgl
  have hlastc : ∃ cl, lb.getLast? = some cl ∧ pyIsSpace cl = false := by
    obtain ⟨cl, hcl⟩ := Option.isSome_iff_exists.mp (List.getLast?_isSome.mpr hlbne)
    exact ⟨cl, hcl, (hlf lb hlb_mem).2.2.2.1 cl hcl⟩
  have hEnds : endsWithNL (yamlDumpRaw meta) = false := by
    obtain ⟨cl, hcl, hclw⟩ := hlastc
    unfold endsWithNL
    rw [hFMlast, hcl]
    have : cl ≠ '\n' := by
      intro h
      subst h
      exact absurd hclw (by decide)
    simpa using this
  have hStrip : pyStrip (yamlDumpRaw meta) = yamlDumpRaw meta := by
    apply pyStrip_eq_self_of_edges
    · intro c hc
      cases hml : meta.map yamlDumpLine with
      | nil => exact absurd hml hmlne
      | cons l0 rest =>
        rw [hdump, hml, intercalate_head? _ _ _
          ((hlf l0 (hml ▸ List.mem_cons_self _ _)).1)] at hc
        exact (hlf l0 (hml ▸ List.mem_cons_self _ _)).2.2.1 c hc
    · intro c hc
      rw [hFMlast] at hc
      exact (hlf lb hlb_mem).2.2.2.1 c hc
  have hSplit : (yamlDumpRaw meta).splitOn '\n' = meta.map yamlDumpLine := by
    rw [hdump]
    exact List.splitOn_intercalate (meta.map yamlDumpLine) '\n'
      (fun l hl => (hlf l hl).2.1) hmlne
  refine ⟨hStrip, hEnds, hFMne, hSplit, ?_⟩
  unfold yamlLoadModel
  have hps : splitLinesNL (yamlDumpRaw meta) = meta.map yamlDumpLine := by
    unfold splitLinesNL
    rw [if_neg hFMne, hEnds]
    simpa using hSplit
  rw [hps]
  exact mapM_parseYamlLine_dump meta (fun kv hkv =>
    ⟨(hall kv hkv).1, (hall kv hkv).2.choose, (hall kv hkv).2.choose_spec.1⟩)

theorem writeSummaryContent_eq (body : PyStr) (meta : Metadata) (hne : meta ≠ [])
    (hstrip : pyStrip (yamlDumpRaw meta) = yamlDumpRaw meta) :
    writeSummaryContent body meta =
      pyOf "---" ++ '\n' :: (yamlDumpRaw meta ++ '\n' ::
        (pyOf "---" ++ '\n' :: ('\n' :: ensureNL body))) := by
  have hie : meta.isEmpty = false := by
    cases meta with
    | nil => exact absurd rfl hne
    | cons a b => rfl
  unfold writeSummaryContent
  simp only [hie, Bool.false_eq_true, if_false, hstrip, List.isEmpty_cons,
    List.cons_append, List.nil_append]
  rw [intercalate_cons_cons, intercalate_cons_cons, intercalate_single]
  simp [List.append_assoc]

theorem splitLinesNL_writeSummaryContent (body : PyStr) (meta : Metadata)
    (hwf : wfMetadata meta) (hne : meta ≠ []) :
    splitLinesNL (writeSummaryContent body meta) =
      pyOf "---" :: (meta.map yamlDumpLine ++
        pyOf "---" :: [] :: (ensureNL body).dropLast.splitOn '\n') := by
  obtain ⟨hstrip, hends, hFMne, hsplitFM, hload⟩ := yamlDumpRaw_facts meta hwf hne
  have hcontent := writeSummaryContent_eq body meta hne hstrip
  have hb2e : endsWithNL (ensureNL body) = true := endsWithNL_ensureNL body
  have hb2ne : ensureNL body ≠ [] := ensureNL_ne_nil body
  have hce : endsWithNL (writeSummaryContent body meta) = true := by
    rw [hcontent,
      endsWithNL_append _ _ (List.cons_ne_nil _ _),
      endsWithNL_cons _ _ (by simp),
      endsWithNL_append _ _ (List.cons_ne_nil _ _),
      endsWithNL_cons _ _ (by simp),
      endsWithNL_append _ _ (List.cons_ne_nil _ _),
      endsWithNL_cons _ _ (List.cons_ne_nil _ _),
      endsWithNL_cons _ _ hb2ne]
    exact hb2e
  have hsp : (writeSummaryContent body meta).splitOn '\n' =
      (pyOf "---" :: (meta.map yamlDumpLine ++
        pyOf "---" :: [] :: (ensureNL body).dropLast.splitOn '\n')) ++ [[]] := by
    rw [hcontent, splitOn_append_sep,
      show (pyOf "---").splitOn '\n' = [pyOf "---"] from rfl,
      splitOn_append_sep, hsplitFM,
      splitOn_append_sep,
      show (pyOf "---").splitOn '\n' = [pyOf "---"] from rfl,
      splitOn_cons_sep]
    conv_lhs => rw [eq_dropLast_concat_of_endsWithNL (ensureNL body) hb2e]
    rw [splitOn_concat_sep]
    simp [List.append_assoc]
  unfold splitLinesNL
  rw [if_neg (by rw [hcontent]; simp), if_pos hce, hsp, List.dropLast_concat]

theorem splitOn_cons_ne {α : Type} [DecidableEq α] (x c : α) (t : List α) (hc : c ≠ x) :
    (c :: t).splitOn x = (t.splitOn x).modifyHead (fun l => c :: l) := by
  show (c :: t).splitOnP (fun a => a == x) = _
  rw [List.splitOnP_cons, if_neg (by simpa using hc)]
  rfl

theorem splitLinesNL_if (s : PyStr) (hs : s ≠ []) :
    splitLinesNL s =
      if endsWithNL s then (s.splitOn '\n').dropLast else s.splitOn '\n' := by
  unfold splitLinesNL
  rw [if_neg hs]

theorem splitLinesNL_cons_nl (t : PyStr) :
    splitLinesNL ('\n' :: t) = [] :: splitLinesNL t := by
  by_cases ht : t = []
  · subst ht
    decide
  · rw [splitLinesNL_if _ (List.cons_ne_nil _ _), splitLinesNL_if t ht,
      endsWithNL_cons '\n' t ht, splitOn_cons_sep]
    by_cases he : endsWithNL t = true
    · rw [if_pos he, if_pos he]
      have hne : t.splitOn '\n' ≠ [] := List.splitOnP_ne_nil _ _
      cases hsp : t.splitOn '\n' with
      | nil => exact absurd hsp hne
      | cons a r => rfl
    · rw [if_neg he, if_neg he]

theorem splitLinesNL_cons_other (c : Char) (t : PyStr) (hc : c ≠ '\n') :
    splitLinesNL (c :: t) =
      match splitLinesNL t with
      | [] => [[c]]
      | l :: ls => (c :: l) :: ls := by
  by_cases ht : t = []
  · subst ht
    show splitLinesNL [c] = [[c]]
    rw [splitLinesNL_if _ (List.cons_ne_nil _ _)]
    have he : endsWithNL [c] = false := by
      unfold endsWithNL
      simpa using hc
    rw [if_neg (by simp [he]), splitOn_cons_ne '\n' c [] hc]
    rfl
  · rw [splitLinesNL_if _ (List.cons_ne_nil _ _), splitLinesNL_if t ht,
      endsWithNL_cons c t ht, splitOn_cons_ne '\n' c t hc]
    have hne : t.splitOn '\n' ≠ [] := List.splitOnP_ne_nil _ _
    cases hsp : t.splitOn '\n' with
    | nil => exact absurd hsp hne
    | cons a r =>
      by_cases he : endsWithNL t = true
      · rw [if_pos he, if_pos he]
        simp only [List.modifyHead]
        cases r with
        | nil =>
          exfalso
          have h2 := eq_dropLast_concat_of_endsWithNL t he
          have h3 := splitOn_concat_sep '\n' t.dropLast
          rw [← h2, hsp] at h3
          have h4 : t.dropLast.splitOn '\n' ≠ [] := List.splitOnP_ne_nil _ _
          cases hq : t.dropLast.splitOn '\n' with
          | nil => exact absurd hq h4
          | cons b rb =>
            rw [hq] at h3
            have hlen := congrArg List.length h3
            simp at hlen
        | cons b r' => rfl
      · rw [if_neg he, if_neg he]
        rfl

theorem pySplitlines_cons_break (c : Char) (t : PyStr) (hb : pyIsLineBreak c = true)
    (hr : c ≠ '\r') : pySplitlines (c :: t) = [] :: pySplitlines t := by
  cases t with
  | nil =>
    show (if pyIsLineBreak c then [[]] else [[c]]) = [[]]
    rw [if_pos hb]
  | cons d rest =>
    show (if pyIsLineBreak c then
            if c = '\r' ∧ d = '\n' then [] :: pySplitlines rest
            else [] :: pySplitlines (d :: rest)
          else
            match pySplitlines (d :: rest) with
            | [] => [[c]]
            | l :: ls => (c :: l) :: ls) = [] :: pySplitlines (d :: rest)
    rw [if_pos hb, if_neg (fun h => hr h.1)]

theorem pySplitlines_cons_nonbreak (c : Char) (t : PyStr) (hb : pyIsLineBreak c = false) :
    pySplitlines (c :: t) =
      match pySplitlines t with
      | [] => [[c]]
      | l :: ls => (c :: l) :: ls := by
  cases t with
  | nil =>
    show (if pyIsLineBreak c then [[]] else [[c]]) = _
    rw [if_neg (by simp [hb])]
    rfl
  | cons d rest =>
    show (if pyIsLineBreak c then
            if c = '\r' ∧ d = '\n' then [] :: pySplitlines rest
            else [] :: pySplitlines (d :: rest)
          else
            match pySplitlines (d :: rest) with
            | [] => [[c]]
            | l :: ls => (c :: l) :: ls) = _
    rw [if_neg (by simp [hb])]

theorem universalNewlines_cons (c : Char) (t : PyStr) (hc : c ≠ '\r') :
    universalNewlines (c :: t) = c :: universalNewlines t := by
  cases t with
  | nil =>
    show (if c = '\r' then ['\n'] else [c]) = c :: universalNewlines []
    rw [if_neg hc]
    rfl
  | cons d rest =>
    show (if c = '\r' then
            if d = '\n' then '\n' :: universalNewlines rest
            else '\n' :: universalNewlines (d :: rest)
          else c :: universalNewlines (d :: rest)) = _
    rw [if_neg hc]

theorem universalNewlines_eq_self (s : PyStr) (h : ∀ c ∈ s, c ≠ '\r') :
    universalNewlines s = s := by
  induction s with
  | nil => rfl
  | cons c t ih =>
    rw [universalNewlines_cons c t (h c (List.mem_cons_self _ _)),
      ih (fun z hz => h z (List.mem_cons_of_mem _ hz))]

theorem pySplitlines_eq_splitLinesNL (s : PyStr) (h : nlClean s) :
    pySplitlines s = splitLinesNL s := by
  induction s with
  | nil => rfl
  | cons c t ih =>
    have ht : nlClean t := fun z hz hbz => h z (List.mem_cons_of_mem _ hz) hbz
    by_cases hb : pyIsLineBreak c = true
    · have hcn : c = '\n' := h c (List.mem_cons_self _ _) hb
      subst hcn
      rw [pySplitlines_cons_break '\n' t (by decide) (by decide), ih ht,
        splitLinesNL_cons_nl t]
    · have hb' : pyIsLineBreak c = false := by simpa using hb
      have hcn : c ≠ '\n' := by
        intro he
        subst he
        exact absurd hb' (by decide)
      rw [pySplitlines_cons_nonbreak c t hb', ih ht, splitLinesNL_cons_other c t hcn]

theorem nlClean_ensureNL (body : PyStr) (hb : nlClean body) : nlClean (ensureNL body) := by
  intro c hc hbr
  unfold ensureNL at hc
  by_cases he : endsWithNL body = true
  · rw [if_pos he] at hc
    exact hb c hc hbr
  · rw [if_neg he] at hc
    rcases List.mem_append.mp hc with h | h
    · exact hb c h hbr
    · simpa using h

theorem yamlDumpLine_eq (k s : PyStr) :
    yamlDumpLine (k, PyJson.str s) = k ++ ':' :: ' ' :: s := by
  unfold yamlDumpLine yamlRenderVal
  rw [show pyOf ": " = [':', ' '] from rfl, List.append_assoc]
  rfl

theorem yamlDumpLine_no_break (kv : PyStr × PyJson) (hk : plainScalar kv.1)
    (hv : ∃ s, kv.2 = PyJson.str s ∧ plainScalar s) :
    ∀ c ∈ yamlDumpLine kv, pyIsLineBreak c = false := by
  obtain ⟨k, v⟩ := kv
  obtain ⟨s, hs, hsp⟩ := hv
  simp only at hs
  subst hs
  intro c hc
  rw [yamlDumpLine_eq] at hc
  rcases List.mem_append.mp hc with h | h
  · exact (hk.2 c h).2.2
  · rcases List.mem_cons.mp h with h | h
    · subst h; decide
    · rcases List.mem_cons.mp h with h | h
      · subst h; decide
      · exact (hsp.2 c h).2.2

theorem nlClean_writeSummaryContent (body : PyStr) (meta : Metadata)
    (hwf : wfMetadata meta) (hb : nlClean body) :
    nlClean (writeSummaryContent body meta) := by
  by_cases hne : meta = []
  · subst hne
    have hw : writeSummaryContent body [] = ensureNL body := by
      unfold writeSummaryContent
      simp [List.intercalate]
    rw [hw]
    exact nlClean_ensureNL body hb
  · have hstrip := (yamlDumpRaw_facts meta hwf hne).1
    rw [writeSummaryContent_eq body meta hne hstrip]
    have hdash : ∀ x ∈ pyOf "---", pyIsLineBreak x = false := by decide
    intro c hc hbr
    rcases List.mem_append.mp hc with h | h
    · rw [hdash c h] at hbr
      exact absurd hbr (by decide)
    · rcases List.mem_cons.mp h with h1 | h1
      · exact h1
      · rcases List.mem_append.mp h1 with h2 | h2
        · have hdump : yamlDumpRaw meta =
              List.intercalate ['\n'] (meta.map yamlDumpLine) := by
            unfold yamlDumpRaw
            rw [sortByKey_eq_self meta hwf.1]
          rw [hdump] at h2
          rcases mem_intercalate ['\n'] (meta.map yamlDumpLine) c h2 with ⟨l, hl, hcl⟩ | hsep
          · obtain ⟨kv, hkv, hkv2⟩ := List.mem_map.mp hl
            obtain ⟨hk, s2, hs2, hsp2⟩ := hwf.2 kv hkv
            have hnb := yamlDumpLine_no_break kv hk ⟨s2, hs2, hsp2⟩ c (hkv2 ▸ hcl)
            rw [hnb] at hbr
            exact absurd hbr (by decide)
          · simpa using hsep
        · rcases List.mem_cons.mp h2 with h3 | h3
          · exact h3
          · rcases List.mem_append.mp h3 with h4 | h4
            · rw [hdash c h4] at hbr
              exact absurd hbr (by decide)
            · rcases List.mem_cons.mp h4 with h5 | h5
              · exact h5
              · rcases List.mem_cons.mp h5 with h6 | h6
                · exact h6
                · exact nlClean_ensureNL body hb c h6 hbr

theorem universalNewlines_writeSummaryContent (body : PyStr) (meta : Metadata)
    (hwf : wfMetadata meta) (hb : nlClean body) :
    universalNewlines (writeSummaryContent body meta) = writeSummaryContent body meta := by
  apply universalNewlines_eq_self
  intro c hc heq
  subst heq
  have := nlClean_writeSummaryContent body meta hwf hb '\r' hc (by decide)
  exact absurd this (by decide)

theorem pySplitlines_writeSummaryContent (body : PyStr) (meta : Metadata)
    (hwf : wfMetadata meta) (hne : meta ≠ []) (hb : nlClean body) :
    pySplitlines (writeSummaryContent body meta) =
      pyOf "---" :: (meta.map yamlDumpLine ++
        pyOf "---" :: [] :: (ensureNL body).dropLast.splitOn '\n') := by
  rw [pySplitlines_eq_splitLinesNL _ (nlClean_writeSummaryContent body meta hwf hb)]
  exact splitLinesNL_writeSummaryContent body meta hwf hne

theorem splitFrontMatter_write_nonempty (body : PyStr) (meta : Metadata)
    (hwf : wfMetadata meta) (hne : meta ≠ []) (hb : nlClean body) :
    splitFrontMatter (writeSummaryContent body meta) =
      Except.ok (meta, ensureNL ('\n' :: (ensureNL body).dropLast)) := by
  obtain ⟨hstrip, hends, hFMne, hsplitFM, hload⟩ := yamlDumpRaw_facts meta hwf hne
  have hdump : yamlDumpRaw meta = List.intercalate ['\n'] (meta.map yamlDumpLine) := by
    unfold yamlDumpRaw
    rw [sortByKey_eq_self meta hwf.1]
  have hlf : ∀ l ∈ meta.map yamlDumpLine, ((pyStrip l == pyOf "---") = false) := by
    intro l hl
    obtain ⟨kv, hkv, hkv2⟩ := List.mem_map.mp hl
    obtain ⟨hk, s, hs, hsp⟩ := hwf.2 kv hkv
    exact hkv2 ▸ (yamlDumpLine_facts kv hk ⟨s, hs, hsp⟩).2.2.2.2.2
  have hlines := pySplitlines_writeSummaryContent body meta hwf hne hb
  unfold splitFrontMatter
  rw [hlines]
  dsimp only
  rw [if_neg (by decide)]
  rw [findIdx?_append_first (fun l => pyStrip l == pyOf "---")
    (meta.map yamlDumpLine) (pyOf "---")
    ([] :: (ensureNL body).dropLast.splitOn '\n') hlf (by decide) 0]
  simp only []
  rw [Nat.zero_add, List.take_left, ← List.drop_drop, List.drop_left]
  simp only [List.drop_succ_cons, List.drop_zero]
  rw [← hdump, hstrip]
  rw [if_neg hFMne, hload]
  dsimp only
  have hsbne : (ensureNL body).dropLast.splitOn '\n' ≠ [] :=
    List.splitOnP_ne_nil _ _
  cases hsb : (ensureNL body).dropLast.splitOn '\n' with
  | nil => exact absurd hsb hsbne
  | cons c r =>
    rw [intercalate_cons_cons, ← hsb, List.intercalate_splitOn (ensureNL body).dropLast '\n']
    have hbody : ([] : PyStr) ++ ['\n'] ++ (ensureNL body).dropLast =
        '\n' :: (ensureNL body).dropLast := by simp
    rw [hbody]
    have hfin : ∀ X : PyStr, X ≠ [] →
        (if X ≠ [] ∧ ¬(endsWithNL X = true) then X ++ ['\n'] else X) = ensureNL X := by
      intro X hX
      unfold ensureNL
      by_cases he : endsWithNL X = true
      · rw [if_neg (by simp [he]), if_pos he]
      · rw [if_pos ⟨hX, by simp [he]⟩, if_neg he]
    rw [hfin _ (List.cons_ne_nil _ _)]

theorem splitFrontMatter_write_empty (body : PyStr)
    (hb : ∀ l, (pySplitlines (ensureNL body)).head? = some l → pyStrip l ≠ pyOf "---") :
    splitFrontMatter (writeSummaryContent body []) = Except.ok ([], ensureNL body) := by
  have hw : writeSummaryContent body [] = ensureNL body := by
    unfold writeSummaryContent
    simp [List.intercalate]
  rw [hw]
  unfold splitFrontMatter
  cases hl : pySplitlines (ensureNL body) with
  | nil => rfl
  | cons first rest =>
    dsimp only
    rw [if_pos (hb first (by rw [hl]; rfl))]

/-- Counterexample to claim C3 as stated: writing body `"hello"` with the
one-entry metadata mapping `{model: x}` and reading the file back yields
the body `"\nhello\n"` — a spurious blank line is prepended, because the
reader keeps the separator blank line in the body slice — which differs
from `"hello"` even after trailing-newline normalization (the metadata
itself round-trips). -/
theorem c3_counterexample_leading_blank :
    load_summary (writeSummaryContent (pyOf "hello")
        [(pyOf "model", PyJson.str (pyOf "x"))]) =
      Except.ok ([(pyOf "model", PyJson.str (pyOf "x"))], pyOf "\nhello\n") ∧
    dropTrailingNLs (pyOf "\nhello\n") ≠ dropTrailingNLs (pyOf "hello") := by
  constructor
  · rfl
  · decide

/-- Claim C3 (amended): for newline-clean bodies (no line-boundary
character other than `'\n'`; Python's `str.splitlines` also splits on
`\r`, `\v`, `\f`, `\x1c`–`\x1e`, `\x85`, U+2028 and U+2029, and
text-mode reads translate `\r`/`\r\n` to `\n`), reading back the file
produced by `write_summary(path, body, metadata)` yields a metadata
mapping equal to the serialized one, but the body gains one leading blank
line when the metadata is non-empty: the body read back is exactly
`ensureNL('\n' :: dropLast(ensureNL body))`.  When the metadata is empty
(no front-matter block is emitted) the body round-trips exactly as
`ensureNL body`, provided its first line does not strip to the
front-matter delimiter.  Metadata is quantified over the YAML model
fragment: canonically sorted mappings with plain scalar string keys and
values. -/
theorem c3_write_read_roundtrip (body : PyStr) (meta : Metadata)
    (hwf : wfMetadata meta) (hb : nlClean body) :
    (meta ≠ [] →
      load_summary (writeSummaryContent body meta) =
        Except.ok (meta, ensureNL ('\n' :: (ensureNL body).dropLast))) ∧
    (meta = [] →
      (∀ l, (pySplitlines (ensureNL body)).head? = some l → pyStrip l ≠ pyOf "---") →
      load_summary (writeSummaryContent body meta) = Except.ok ([], ensureNL body)) := by
  constructor
  · intro hne
    unfold load_summary
    rw [universalNewlines_writeSummaryContent body meta hwf hb]
    exact splitFrontMatter_write_nonempty body meta hwf hne hb
  · intro he hguard
    subst he
    unfold load_summary
    rw [universalNewlines_writeSummaryContent body [] hwf hb]
    exact splitFrontMatter_write_empty body hguard

/-- Witness for claim C3's amended theorem at a concrete body and
metadata mapping. -/
theorem c3_witness :
    load_summary (writeSummaryContent (pyOf "body text")
        [(pyOf "model", PyJson.str (pyOf "m1"))]) =
      Except.ok ([(pyOf "model", PyJson.str (pyOf "m1"))],
        ensureNL ('\n' :: (ensureNL (pyOf "body text")).dropLast)) :=
  (c3_write_read_roundtrip (pyOf "body text") [(pyOf "model", PyJson.str (pyOf "m1"))]
    ⟨by simp [sortedKeys], by
      intro kv hkv
      simp only [List.mem_singleton] at hkv
      subst hkv
      exact ⟨by unfold plainScalar; exact ⟨by decide, by decide⟩, pyOf "m1", rfl,
        by unfold plainScalar; exact ⟨by decide, by decide⟩⟩⟩
    (by unfold nlClean; decide)).1 (by simp)

/-! ### Embedding of openrouter_client.py

HTTP traffic is modelled by response scripts: for each attempt index the
script gives either a network-level transport error (`httpx.HTTPError`,
possibly a timeout) or a status code with a response body.  Backoff sleep
durations are not modelled (no claim concerns them). -/

/-- A response body at the `response.json()` boundary. -/
inductive RespBody where
  | notJson
  | json (j : PyJson)

/-- The outcome of one HTTP attempt. -/
inductive Attempt where
  | transport (isTimeout : Bool)
  | response (status : Nat) (body : RespBody)

/-- The OpenRouter error taxonomy.  `authError` and `clientConfig` carry
the code's fixed message strings; the status-classified errors carry the
raised message value (the server's error message when truthy, else the
fallback string).  `pyAttrError` models the `AttributeError` raised by
`body.get("error", {}).get("message")` when the `error` field is present
but not a dict. -/
inductive ORError where
  | authError (msg : PyStr)
  | rateLimit (msg : PyJson)
  | transient (msg : PyJson)
  | clientConfig (msg : PyStr)
  | generic (msg : PyJson)
  | pyAttrError

/-- Embedding of `OpenRouterClient._safe_json`. -/
def safeJson : RespBody → Except ORError (List (PyStr × PyJson))
  | RespBody.notJson =>
    Except.error (ORError.clientConfig (pyOf "OpenRouter returned a non-JSON response"))
  | RespBody.json (PyJson.obj kvs) => Except.ok kvs
  | RespBody.json _ =>
    Except.error (ORError.clientConfig (pyOf "OpenRouter response was not a JSON object"))

/-- The `body.get("error", {}).get("message")` computation. -/
def errorMessageOf (kvs : List (PyStr × PyJson)) : Except ORError (Option PyJson) :=
  match jget kvs (pyOf "error") with
  | none => Except.ok none
  | some (PyJson.obj ekvs) => Except.ok (jget ekvs (pyOf "message"))
  | some _ => Except.error ORError.pyAttrError

/-- Python `message or fallback`. -/
def msgOr (m : Option PyJson) (fallback : PyStr) : PyJson :=
  match m with
  | some v => if jtruthy v then v else PyJson.str fallback
  | none => PyJson.str fallback

/-- Embedding of `OpenRouterClient._RETRY_STATUS_CODES`. -/
def RETRY_STATUS_CODES : List Nat := [408, 409, 425, 429, 500, 502, 503, 504]

/-- The `response.status_code >= 400` classification branch of
`_request_with_retries`. -/
def classifyHttpError (status : Nat) (body : RespBody) :
    Except ORError (List (PyStr × PyJson)) :=
  match safeJson body with
  | Except.error e => Except.error e
  | Except.ok kvs =>
    match errorMessageOf kvs with
    | Except.error e => Except.error e
    | Except.ok m =>
      if status = 429 then
        Except.error (ORError.rateLimit (msgOr m (pyOf "OpenRouter rate limit exceeded (429)")))
      else if 500 ≤ status then
        Except.error (ORError.transient
          (msgOr m (pyOf "OpenRouter server error (" ++ pyOf (toString status) ++ pyOf ")")))
      else
        Except.error (ORError.generic
          (msgOr m (pyOf "OpenRouter request failed (" ++ pyOf (toString status) ++ pyOf ")")))

/-- One non-final loop iteration of `_request_with_retries`: `none` means
the iteration continues (transport error, or retryable status with
attempts left); `some r` is the returned value or raised error. -/
def settleEarly (a : Attempt) : Option (Except ORError (List (PyStr × PyJson))) :=
  match a with
  | Attempt.transport _ => none
  | Attempt.response status body =>
    if status = 401 then
      some (Except.error (ORError.authError (pyOf "OpenRouter rejected the API key (401)")))
    else if status = 403 then
      some (Except.error (ORError.authError (pyOf "OpenRouter denied access (403)")))
    else if status ∈ RETRY_STATUS_CODES then none
    else if 400 ≤ status then some (classifyHttpError status body)
    else some (safeJson body)

/-- The final loop iteration of `_request_with_retries` (no retries
remain), including the post-loop `TransientError` raised when the last
attempt was a transport error. -/
def settleLast (a : Attempt) : Except ORError (List (PyStr × PyJson)) :=
  match a with
  | Attempt.transport isTimeout =>
    Except.error (ORError.transient (PyJson.str
      (if isTimeout then pyOf "OpenRouter request timed out after retries"
       else pyOf "OpenRouter request failed after retries")))
  | Attempt.response status body =>
    if status = 401 then
      Except.error (ORError.authError (pyOf "OpenRouter rejected the API key (401)"))
    else if status = 403 then
      Except.error (ORError.authError (pyOf "OpenRouter denied access (403)"))
    else if 400 ≤ status then classifyHttpError status body
    else safeJson body

/-- The retry loop of `_request_with_retries` from attempt `i` with `rem`
retries remaining; returns the outcome and the number of HTTP requests
issued. -/
def requestWithRetriesAux (script : Nat → Attempt) :
    (i rem : Nat) → (Except ORError (List (PyStr × PyJson))) × Nat
  | i, 0 => (settleLast (script i), 1)
  | i, rem + 1 =>
    match settleEarly (script i) with
    | some r => (r, 1)
    | none =>
      let p := requestWithRetriesAux script (i + 1) rem
      (p.1, p.2 + 1)

/-- Embedding of `OpenRouterClient._request_with_retries` over a response
script, with the request count. -/
def requestWithRetries (maxRetries : Nat) (script : Nat → Attempt) :
    (Except ORError (List (PyStr × PyJson))) × Nat :=
  requestWithRetriesAux script 0 maxRetries

/-- An attempt the loop retries: a transport error or a retryable status
(with attempts remaining). -/
def retries : Attempt → Bool
  | Attempt.transport _ => true
  | Attempt.response status _ => decide (status ∈ RETRY_STATUS_CODES)

theorem settleEarly_none_of_retries (a : Attempt) (h : retries a = true) :
    settleEarly a = none := by
  cases a with
  | transport t => rfl
  | response s b =>
    unfold retries at h
    simp only [] at h
    have hmem : s ∈ RETRY_STATUS_CODES := of_decide_eq_true h
    have h401 : s ≠ 401 := by
      intro he; subst he; exact absurd hmem (by decide)
    have h403 : s ≠ 403 := by
      intro he; subst he; exact absurd hmem (by decide)
    unfold settleEarly
    simp only []
    rw [if_neg h401, if_neg h403, if_pos hmem]

theorem retries_of_settleEarly_none (a : Attempt) (h : settleEarly a = none) :
    retries a = true := by
  cases a with
  | transport t => rfl
  | response s b =>
    unfold settleEarly at h
    simp only [] at h
    by_cases h401 : s = 401
    · rw [if_pos h401] at h; simp at h
    · rw [if_neg h401] at h
      by_cases h403 : s = 403
      · rw [if_pos h403] at h; simp at h
      · rw [if_neg h403] at h
        by_cases hmem : s ∈ RETRY_STATUS_CODES
        · unfold retries
          simp only []
          simpa using hmem
        · rw [if_neg hmem] at h
          by_cases h400 : 400 ≤ s
          · rw [if_pos h400] at h; simp at h
          · rw [if_neg h400] at h; simp at h

theorem rwrAux_all_retry (script : Nat → Attempt) :
    ∀ rem i, (∀ j, i ≤ j → j < i + rem → retries (script j) = true) →
      requestWithRetriesAux script i rem = (settleLast (script (i + rem)), rem + 1) := by
  intro rem
  induction rem with
  | zero => intro i h; simp [requestWithRetriesAux]
  | succ rem ih =>
    intro i h
    have hse : settleEarly (script i) = none :=
      settleEarly_none_of_retries _ (h i le_rfl (by omega))
    unfold requestWithRetriesAux
    rw [hse]
    rw [ih (i + 1) (fun j h1 h2 => h j (by omega) (by omega))]
    have : i + 1 + rem = i + (rem + 1) := by omega
    rw [this]

theorem rwrAux_stop_at (script : Nat → Attempt) :
    ∀ k rem i r, k < rem → (∀ j, i ≤ j → j < i + k → retries (script j) = true) →
      settleEarly (script (i + k)) = some r →
      requestWithRetriesAux script i rem = (r, k + 1) := by
  intro k
  induction k with
  | zero =>
    intro rem i r hk h hs
    cases rem with
    | zero => omega
    | succ rem' =>
      rw [Nat.add_zero] at hs
      unfold requestWithRetriesAux
      rw [hs]
  | succ k ih =>
    intro rem i r hk h hs
    cases rem with
    | zero => omega
    | succ rem' =>
      have hse : settleEarly (script i) = none :=
        settleEarly_none_of_retries _ (h i le_rfl (by omega))
      unfold requestWithRetriesAux
      rw [hse]
      have hs' : settleEarly (script (i + 1 + k)) = some r := by
        have : i + 1 + k = i + (k + 1) := by omega
        rw [this]
        exact hs
      rw [ih rem' (i + 1) r (by omega) (fun j h1 h2 => h j (by omega) (by omega)) hs']

theorem rwrAux_count (script : Nat → Attempt) :
    ∀ rem i, (requestWithRetriesAux script i rem).2 ≤ rem + 1 ∧
      ∀ m, m + 1 < (requestWithRetriesAux script i rem).2 →
        retries (script (i + m)) = true := by
  intro rem
  induction rem with
  | zero =>
    intro i
    refine ⟨le_rfl, ?_⟩
    intro m hm
    simp [requestWithRetriesAux] at hm
  | succ rem ih =>
    intro i
    unfold requestWithRetriesAux
    cases hse : settleEarly (script i) with
    | some r =>
      refine ⟨by simp, ?_⟩
      intro m hm
      simp at hm
    | none =>
      obtain ⟨ih1, ih2⟩ := ih (i + 1)
      refine ⟨by simpa using Nat.add_le_add_right ih1 1, ?_⟩
      intro m hm
      simp only at hm
      cases m with
      | zero =>
        rw [Nat.add_zero]
        exact retries_of_settleEarly_none _ hse
      | succ m' =>
        have : i + (m' + 1) = i + 1 + m' := by omega
        rw [this]
        exact ih2 m' (by omega)

/-- Claim C2 (amended): in `_request_with_retries`, a 401 or 403 response
is never retried and immediately raises `AuthenticationError`; after
retries are exhausted, a 429 raises `RateLimitError`, a 5xx raises
`TransientError`, and any other 4xx raises a generic `OpenRouterError`,
each carrying the server's error message when truthy — provided the
response body is a JSON object whose `error` field, if present, is an
object (a non-JSON or non-object body raises `ClientConfigurationError`
from `_safe_json` instead); and only the status codes
{408, 409, 425, 429, 500, 502, 503, 504} and network-level transport
errors are ever retried. -/
theorem c2_retry_classification (maxRetries : Nat) (script : Nat → Attempt) :
    (∀ i b, i ≤ maxRetries →
      (∀ j, j < i → retries (script j) = true) →
      script i = Attempt.response 401 b →
      requestWithRetries maxRetries script =
        (Except.error (ORError.authError (pyOf "OpenRouter rejected the API key (401)")),
         i + 1)) ∧
    (∀ i b, i ≤ maxRetries →
      (∀ j, j < i → retries (script j) = true) →
      script i = Attempt.response 403 b →
      requestWithRetries maxRetries script =
        (Except.error (ORError.authError (pyOf "OpenRouter denied access (403)")), i + 1)) ∧
    (∀ s kvs m, (∀ j, j < maxRetries → retries (script j) = true) →
      script maxRetries = Attempt.response s (RespBody.json (PyJson.obj kvs)) →
      errorMessageOf kvs = Except.ok m →
      400 ≤ s → s ≠ 401 → s ≠ 403 →
      requestWithRetries maxRetries script =
        (Except.error (
          if s = 429 then
            ORError.rateLimit (msgOr m (pyOf "OpenRouter rate limit exceeded (429)"))
          else if 500 ≤ s then
            ORError.transient (msgOr m
              (pyOf "OpenRouter server error (" ++ pyOf (toString s) ++ pyOf ")"))
          else
            ORError.generic (msgOr m
              (pyOf "OpenRouter request failed (" ++ pyOf (toString s) ++ pyOf ")"))),
         maxRetries + 1)) ∧
    (∀ i, i + 1 < (requestWithRetries maxRetries script).2 → retries (script i) = true) := by
  refine ⟨?_, ?_, ?_, ?_⟩
  · intro i b hi hpre hs
    rcases Nat.lt_or_ge i maxRetries with hlt | hge
    · exact rwrAux_stop_at script i maxRetries 0 _ hlt
        (fun j h1 h2 => hpre j (by omega)) (by rw [Nat.zero_add, hs]; rfl)
    · have heq : i = maxRetries := by omega
      subst heq
      unfold requestWithRetries
      rw [rwrAux_all_retry script i 0 (fun j h1 h2 => hpre j (by omega)),
        Nat.zero_add, hs]
      rfl
  · intro i b hi hpre hs
    rcases Nat.lt_or_ge i maxRetries with hlt | hge
    · exact rwrAux_stop_at script i maxRetries 0 _ hlt
        (fun j h1 h2 => hpre j (by omega)) (by rw [Nat.zero_add, hs]; rfl)
    · have heq : i = maxRetries := by omega
      subst heq
      unfold requestWithRetries
      rw [rwrAux_all_retry script i 0 (fun j h1 h2 => hpre j (by omega)),
        Nat.zero_add, hs]
      rfl
  · intro s kvs m hpre hs hmsg h400 h401 h403
    unfold requestWithRetries
    rw [rwrAux_all_retry script maxRetries 0 (fun j h1 h2 => hpre j (by omega)),
      Nat.zero_add, hs]
    unfold settleLast
    simp only []
    rw [if_neg h401, if_neg h403, if_pos h400]
    unfold classifyHttpError safeJson
    simp only []
    rw [hmsg]
    by_cases h429 : s = 429
    · simp [h429]
    · by_cases h500 : 500 ≤ s
      · simp [h429, h500]
      · simp [h429, h500]
  · intro i h
    have := (rwrAux_count script maxRetries 0).2 i (by exact h)
    rwa [Nat.zero_add] at this

/-- Discriminator for `RateLimitError`. -/
def isRateLimitError : ORError → Bool
  | ORError.rateLimit _ => true
  | _ => false

/-- Discriminator for `ClientConfigurationError`. -/
def isClientConfigError : ORError → Bool
  | ORError.clientConfig _ => true
  | _ => false

/-- Counterexample to claim C2 as stated: a 429 response whose body is
not JSON, reached after retries are exhausted (`max_retries = 0`), raises
`ClientConfigurationError` from `_safe_json` rather than the
`RateLimitError` the claim requires for every response sequence. -/
theorem c2_counterexample_non_json_429 :
    (requestWithRetries 0 (fun _ => Attempt.response 429 RespBody.notJson)).1 =
      Except.error (ORError.clientConfig (pyOf "OpenRouter returned a non-JSON response")) ∧
    isRateLimitError (ORError.clientConfig (pyOf "OpenRouter returned a non-JSON response")) =
      false ∧
    (requestWithRetries 0 (fun _ => Attempt.response 429 RespBody.notJson)).2 = 1 :=
  ⟨rfl, rfl, rfl⟩

/-- Witness for claim C2's amended theorem: one transport retry, then a
429 with an empty JSON object body, classified as `RateLimitError` after
two requests. -/
theorem c2_witness :
    requestWithRetries 1 (fun i =>
      if i = 0 then Attempt.transport false
      else Attempt.response 429 (RespBody.json (PyJson.obj []))) =
      (Except.error (ORError.rateLimit
        (PyJson.str (pyOf "OpenRouter rate limit exceeded (429)"))), 2) := by
  have h := (c2_retry_classification 1 (fun i =>
      if i = 0 then Attempt.transport false
      else Attempt.response 429 (RespBody.json (PyJson.obj [])))).2.2.1
    429 [] none
    (by
      intro j hj
      have : j = 0 := by omega
      subst this
      rfl)
    rfl rfl (by decide) (by decide) (by decide)
  simpa using h

/-- HTTP requests observable at the transport, by endpoint. -/
inductive HttpEvent where
  | completionRequest
  | modelsRequest

/-- Embedding of `OpenRouterClient` state.  The two response scripts model
the transport for `POST /chat/completions` and `GET /models`; headers and
the `httpx.Client` construction are connectionless.  `modelCache` and
`cacheFresh` model `_model_cache` and the TTL test on
`_model_cache_timestamp` (indexed catalog entries keyed by the JSON `id`
value). -/
structure ClientState where
  apiKey : String
  maxRetries : Nat
  completionScript : Nat → Attempt
  modelsScript : Nat → Attempt
  modelCache : List (PyJson × PyJson)
  cacheFresh : Bool

/-- Embedding of `OpenRouterClient.__init__`: an empty (or missing) API
key raises `AuthenticationError`; construction performs no HTTP request
(the event trace of every construction is empty).  `diskCache` models the
outcome of `_load_model_cache` on the optional cache file: the indexed
entries and whether the persisted timestamp is within the TTL. -/
def clientInit (apiKey : Option String) (maxRetries : Nat)
    (completionScript modelsScript : Nat → Attempt)
    (diskCache : Option (List (PyJson × PyJson) × Bool)) :
    (Except ORError ClientState) × List HttpEvent :=
  if apiKey.getD "" = "" then
    (Except.error (ORError.authError (pyOf "OpenRouter API key is required")), [])
  else
    (Except.ok
      { apiKey := apiKey.getD ""
        maxRetries := maxRetries
        completionScript := completionScript
        modelsScript := modelsScript
        modelCache := (diskCache.map Prod.fst).getD []
        cacheFresh := (diskCache.map Prod.snd).getD false }, [])

/-- Claim C10: constructing an `OpenRouterClient` with an empty or
missing API key raises `AuthenticationError` immediately, and no
construction ever issues an HTTP request. -/
theorem c10_client_init_empty_key (apiKey : Option String) (maxRetries : Nat)
    (completionScript modelsScript : Nat → Attempt)
    (diskCache : Option (List (PyJson × PyJson) × Bool)) :
    ((apiKey = none ∨ apiKey = some "") →
      clientInit apiKey maxRetries completionScript modelsScript diskCache =
        (Except.error (ORError.authError (pyOf "OpenRouter API key is required")), [])) ∧
    (clientInit apiKey maxRetries completionScript modelsScript diskCache).2 = [] := by
  constructor
  · intro h
    rcases h with h | h <;> subst h <;> rfl
  · unfold clientInit
    by_cases h : apiKey.getD "" = ""
    · rw [if_pos h]
    · rw [if_neg h]

/-- Witness for claim C10 at the empty API key. -/
theorem c10_witness :
    clientInit (some "") 3 (fun _ => Attempt.transport false)
        (fun _ => Attempt.transport false) none =
      (Except.error (ORError.authError (pyOf "OpenRouter API key is required")), []) :=
  (c10_client_init_empty_key (some "") 3 (fun _ => Attempt.transport false)
    (fun _ => Attempt.transport false) none).1 (Or.inr rfl)

/-- Embedding of `ChatCompletionResult`. -/
structure ChatCompletionResult where
  content : PyStr
  usage : List (PyStr × PyJson)
  raw : List (PyStr × PyJson)
  reasoning : Option (List (PyStr × PyJson)) := none
  finishReason : Option PyStr := none

/-- Embedding of `OpenRouterClient._parse_chat_completion`.  The
`first_choice.get` call on a non-dict first choice is the Python
`AttributeError` (`pyAttrError`). -/
def parseChatCompletion (data : List (PyStr × PyJson)) :
    Except ORError ChatCompletionResult :=
  match jget data (pyOf "choices") with
  | some (PyJson.arr choices) =>
    match choices with
    | [] => Except.error (ORError.clientConfig (pyOf "OpenRouter chat response missing choices"))
    | firstChoice :: _ =>
      match firstChoice with
      | PyJson.obj ckvs =>
        match jget ckvs (pyOf "message") with
        | some (PyJson.obj mkvs) =>
          match jget mkvs (pyOf "content") with
          | some (PyJson.str content) =>
            let usage :=
              match jget data (pyOf "usage") with
              | some (PyJson.obj ukvs) => ukvs
              | _ => []
            let reasoningVal :=
              match jget mkvs (pyOf "reasoning") with
              | some r => if jtruthy r then some r else none
              | none => none
            let reasoningVal :=
              match reasoningVal with
              | some r => some r
              | none =>
                match jget ckvs (pyOf "reasoning") with
                | some r => if jtruthy r then some r else none
                | none => none
            let reasoningVal :=
              match reasoningVal with
              | some r => some r
              | none =>
                match jget data (pyOf "reasoning") with
                | some r => if jtruthy r then some r else none
                | none => none
            let reasoning :=
              match reasoningVal with
              | some (PyJson.obj rkvs) => some rkvs
              | _ => none
            let finishReason :=
              match jget ckvs (pyOf "finish_reason") with
              | some (PyJson.str s) => some s
              | _ => none
            Except.ok
              { content := content, usage := usage, raw := data
                reasoning := reasoning, finishReason := finishReason }
          | _ => Except.error
              (ORError.clientConfig (pyOf "OpenRouter chat response missing text content"))
        | _ => Except.error
            (ORError.clientConfig (pyOf "OpenRouter chat response missing message content"))
      | _ => Except.error ORError.pyAttrError
  | _ => Except.error (ORError.clientConfig (pyOf "OpenRouter chat response missing choices"))

/-- Lookup in the indexed model catalog with a string key, modelling
Python dict lookup `catalog.get(model)` for string ids. -/
def jsonEqStr (v : PyJson) (s : PyStr) : Bool :=
  match v with
  | PyJson.str t => t == s
  | _ => false

def catalogGet (catalog : List (PyJson × PyJson)) (model : PyStr) : Option PyJson :=
  (catalog.find? (fun kv => jsonEqStr kv.1 model)).map Prod.snd

/-- The indexing comprehension of `model_catalog`: keep dict entries with
a truthy `id`; on duplicate ids the later entry wins (modelled by
prepending under first-match lookup). -/
def indexModels (models : List PyJson) : List (PyJson × PyJson) :=
  models.foldl (fun acc m =>
    match m with
    | PyJson.obj kvs =>
      match jget kvs (pyOf "id") with
      | some idv => if jtruthy idv then (idv, m) :: acc else acc
      | none => acc
    | _ => acc) []

/-- Embedding of `OpenRouterClient.model_catalog`: serve the in-memory
cache when it is truthy and fresh, else fetch `GET /models`, index and
update the cache.  The best-effort disk persistence has no observable
effect in the model. -/
def modelCatalog (st : ClientState) (forceRefresh : Bool) :
    (Except ORError (List (PyJson × PyJson))) × ClientState × List HttpEvent :=
  if !forceRefresh && !st.modelCache.isEmpty && st.cacheFresh then
    (Except.ok st.modelCache, st, [])
  else
    match requestWithRetries st.maxRetries st.modelsScript with
    | (Except.error e, n) => (Except.error e, st, List.replicate n HttpEvent.modelsRequest)
    | (Except.ok kvs, n) =>
      match jget kvs (pyOf "data") with
      | some (PyJson.arr models) =>
        let indexed := indexModels models
        (Except.ok indexed,
         { st with modelCache := indexed, cacheFresh := true },
         List.replicate n HttpEvent.modelsRequest)
      | _ =>
        (Except.error (ORError.clientConfig
          (pyOf "OpenRouter models endpoint returned unexpected payload")), st,
         List.replicate n HttpEvent.modelsRequest)

/-- Embedding of `_cost_component` on JSON numbers; Python float parsing
of numeric strings and the 6-decimal rounding of binary floats are
outside the model. -/
def costComponent (pricePer1k tokens : Option PyJson) : Option ℚ :=
  match pricePer1k, tokens with
  | some (PyJson.num p), some (PyJson.num t) => some (p / 1000 * t)
  | _, _ => none

/-- Embedding of `OpenRouterClient.estimate_cost`. -/
def estimateCost (st : ClientState) (model : PyStr) (usage : List (PyStr × PyJson)) :
    (Except ORError (Option (List (PyStr × ℚ)))) × ClientState × List HttpEvent :=
  match modelCatalog st false with
  | (Except.error e, st', tr) => (Except.error e, st', tr)
  | (Except.ok catalog, st', tr) =>
    match catalogGet catalog model with
    | none => (Except.ok none, st', tr)
    | some info =>
      if !jtruthy info then (Except.ok none, st', tr)
      else
        match info with
        | PyJson.obj ikvs =>
          match jget ikvs (pyOf "pricing") with
          | some (PyJson.obj pkvs) =>
            let promptCost := costComponent (jget pkvs (pyOf "prompt"))
              (jget usage (pyOf "prompt_tokens"))
            let completionCost := costComponent (jget pkvs (pyOf "completion"))
              (jget usage (pyOf "completion_tokens"))
            match promptCost, completionCost with
            | none, none => (Except.ok none, st', tr)
            | pc, cc =>
              let comps :=
                (match pc with
                 | some p => [(pyOf "prompt", p)]
                 | none => []) ++
                (match cc with
                 | some c => [(pyOf "completion", c)]
                 | none => [])
              (Except.ok (some (comps ++ [(pyOf "total", pc.getD 0 + cc.getD 0)])), st', tr)
          | _ => (Except.ok none, st', tr)
        | _ => (Except.error ORError.pyAttrError, st', tr)

/-- Embedding of `OpenRouterClient.generate`: one `_post_with_retries`
call against the completion script, then `_parse_chat_completion`.  The
composed JSON payload (model, messages, temperature, reasoning,
extra_payload overrides) has no observable effect on the script-driven
transport model. -/
def clientGenerate (st : ClientState) :
    (Except ORError ChatCompletionResult) × List HttpEvent :=
  match requestWithRetries st.maxRetries st.completionScript with
  | (Except.error e, n) => (Except.error e, List.replicate n HttpEvent.completionRequest)
  | (Except.ok data, n) =>
    (parseChatCompletion data, List.replicate n HttpEvent.completionRequest)

/-! ### Embedding of the orchestrator (service.py)

The filesystem is an association list from paths to file values:
free-form text files, and JSONL files kept at the `json.loads` boundary
(a written messages log stores the serialized message list).  The world
carries the optional remote client. -/

inductive FileVal where
  | text (s : PyStr)
  | jsonl (ls : List SessLine)

structure World where
  files : List (FsPath × FileVal)
  client : Option ClientState

def fsLookup (w : World) (p : FsPath) : Option FileVal :=
  (w.files.find? (fun kv => kv.1 == p)).map Prod.snd

/-- Write (or overwrite) a file: prepend under first-match lookup. -/
def fsWrite (w : World) (p : FsPath) (v : FileVal) : World :=
  { w with files := (p, v) :: w.files }

/-- Embedding of `types.SummaryRequest`. -/
structure SummaryRequest where
  sessionPath : FsPath
  promptVariant : PyStr
  model : PyStr
  promptPath : Option FsPath := none
  reasoningEffort : Option PyStr := some (pyOf "medium")
  refresh : Bool := false
  stripMetadata : Bool := false

/-- Embedding of `types.SummaryRecord`. -/
structure SummaryRecord where
  body : PyStr
  cachePath : FsPath
  metadata : Metadata
  cached : Bool

/-- Embedding of `SummaryService` configuration: roots, prompt search
directories, and the digest function parameter of the path resolver. -/
structure SummaryService where
  summaryRoot : FsPath
  sessionsRoot : Option FsPath
  promptDirs : List FsPath
  digest : FsPath → PyStr

inductive SvcError where
  | runtimeNoClient
  | fileNotFound
  | promptNotFound
  | promptInvalid (e : PromptError)
  | valueError
  | orError (e : ORError)
  | unmodeledRead

/-- Suffix test, modelling `str.endswith`. -/
def pyEndsWith (s suffix : PyStr) : Bool := suffix.isSuffixOf s

/-- Embedding of `PromptLoader._variant_candidates`. -/
def promptVariantCandidates (dir : FsPath) (prompt : PyStr) : List FsPath :=
  let name := if '.' ∈ prompt then prompt else prompt ++ pyOf ".md"
  [dir ++ [name]] ++
    (if pyEndsWith name (pyOf ".txt") then [] else [dir ++ [prompt ++ pyOf ".txt"]])

/-- Embedding of `PromptLoader.resolve`: the prompt string as a literal
path first, then the first existing variant candidate over the search
directories. -/
def promptResolve (svc : SummaryService) (w : World) (prompt : PyStr) :
    Except SvcError FsPath :=
  let candidate : FsPath := [prompt]
  if (fsLookup w candidate).isSome then Except.ok candidate
  else
    match (svc.promptDirs.flatMap (fun d => promptVariantCandidates d prompt)).find?
        (fun p => (fsLookup w p).isSome) with
    | some p => Except.ok p
    | none => Except.error SvcError.promptNotFound

/-- Embedding of `PromptLoader.load`: resolve, read, validate. -/
def promptLoad (svc : SummaryService) (w : World) (prompt : PyStr) :
    Except SvcError PromptDocument :=
  match promptResolve svc w prompt with
  | Except.error e => Except.error e
  | Except.ok p =>
    match fsLookup w p with
    | some (FileVal.text content) =>
      match promptLoadContent content p with
      | Except.ok doc => Except.ok doc
      | Except.error e => Except.error (SvcError.promptInvalid e)
    | _ => Except.error SvcError.fileNotFound

/-- The JSONL lines of a session file, when present in the model. -/
def sessLinesOf (w : World) (p : FsPath) : Option (List SessLine) :=
  match fsLookup w p with
  | some (FileVal.jsonl ls) => some ls
  | _ => none

/-- Embedding of `SummaryService._ensure_messages_file`: rewrite the
extracted-message log when `refresh` is set or the file is missing;
reading a missing session file raises (`FileNotFoundError`). -/
def ensureMessagesFile (w : World) (sessionPath messagesPath : FsPath) (refresh : Bool) :
    Except SvcError (Option Nat × World) :=
  if refresh || (fsLookup w messagesPath).isNone then
    match sessLinesOf w sessionPath with
    | none => Except.error SvcError.fileNotFound
    | some ls =>
      let msgs := (write_messages_jsonl ls).1
      Except.ok (some msgs.length,
        fsWrite w messagesPath (FileVal.jsonl (msgs.map SessLine.val)))
  else Except.ok (none, w)

/-- Chat message contents at the model's granularity: the system prompt
text, or the transcript block built from the extracted-message log (its
string rendering is not further modelled). -/
inductive MsgContent where
  | text (s : PyStr)
  | transcript (v : FileVal)

structure ChatMsg where
  role : PyStr
  content : MsgContent

/-- Embedding of `SummaryService._default_messages`. -/
def defaultMessages (promptContent : PyStr) (w : World) (messagesPath : FsPath) :
    Except SvcError (List ChatMsg) :=
  let systemPrompt := if pyStrip promptContent = [] then promptContent else pyStrip promptContent
  match fsLookup w messagesPath with
  | none => Except.error SvcError.fileNotFound
  | some v =>
    Except.ok [⟨pyOf "system", MsgContent.text systemPrompt⟩,
               ⟨pyOf "user", MsgContent.transcript v⟩]

/-- Render a path as the `str(path)` of the model. -/
def pathToStr (p : FsPath) : PyStr := pyOf "/" ++ List.intercalate (pyOf "/") p

/-- Embedding of `SummaryService._build_metadata`, including the
`estimate_cost` call on the client (which may fetch the model catalog). -/
def buildMetadata (st : ClientState) (req : SummaryRequest) (promptPath : FsPath)
    (messagesPath : FsPath) (messageCount : Option Nat) (result : ChatCompletionResult) :
    (Except ORError Metadata) × ClientState × List HttpEvent :=
  match estimateCost st req.model result.usage with
  | (Except.error e, st', tr) => (Except.error e, st', tr)
  | (Except.ok cost, st', tr) =>
    let m0 : Metadata :=
      [(pyOf "model", PyJson.str req.model),
       (pyOf "prompt_variant", PyJson.str req.promptVariant),
       (pyOf "prompt_path", PyJson.str (pathToStr promptPath)),
       (pyOf "source_path", PyJson.str (pathToStr req.sessionPath)),
       (pyOf "usage", PyJson.obj result.usage),
       (pyOf "messages_path", PyJson.str (pathToStr messagesPath))]
    let m1 :=
      match messageCount with
      | some n => m0 ++ [(pyOf "message_count", PyJson.num n)]
      | none => m0
    let m2 :=
      match cost with
      | some comps =>
        if comps.isEmpty then m1
        else m1 ++ [(pyOf "cost_estimate_usd",
          PyJson.obj (comps.map (fun kv => (kv.1, PyJson.num kv.2))))]
      | none => m1
    let m3 :=
      match result.reasoning with
      | some r =>
        if r.isEmpty then m2 else m2 ++ [(pyOf "reasoning", PyJson.obj r)]
      | none => m2
    let m4 :=
      match result.finishReason with
      | some f =>
        if f.isEmpty then m3 else m3 ++ [(pyOf "finish_reason", PyJson.str f)]
      | none => m3
    (Except.ok (m4 ++ [(pyOf "raw_response", PyJson.obj result.raw)]), st', tr)

/-- The resolved cache path of a request (`SummaryService.generate` line
resolving `cache_path_for`). -/
def cachePathOf (svc : SummaryService) (req : SummaryRequest) : FsPath :=
  cache_path_for svc.digest ⟨svc.summaryRoot, svc.sessionsRoot⟩
    req.sessionPath req.promptVariant req.model

/-- The resolved extracted-message log path of a request. -/
def messagesPathOf (svc : SummaryService) (req : SummaryRequest) : FsPath :=
  messages_path_for svc.digest ⟨svc.summaryRoot, svc.sessionsRoot⟩ req.sessionPath

/-- The cache-miss (or refresh) arm of `SummaryService.generate`. -/
def generateMiss (svc : SummaryService) (w : World) (req : SummaryRequest)
    (refresh : Bool) (msgsOpt : Option (List ChatMsg)) :
    (Except SvcError SummaryRecord) × World × List HttpEvent :=
  let cachePath := cachePathOf svc req
  let messagesPath := messagesPathOf svc req
  match w.client with
  | none => (Except.error SvcError.runtimeNoClient, w, [])
  | some st =>
    match promptLoad svc w req.promptVariant with
    | Except.error e => (Except.error e, w, [])
    | Except.ok prompt =>
      match ensureMessagesFile w req.sessionPath messagesPath refresh with
      | Except.error e => (Except.error e, w, [])
      | Except.ok (messageCount, w1) =>
        match (match msgsOpt with
               | some m =>
                 if m.isEmpty then defaultMessages prompt.content w1 messagesPath
                 else Except.ok m
               | none => defaultMessages prompt.content w1 messagesPath) with
        | Except.error e => (Except.error e, w1, [])
        | Except.ok _preparedMessages =>
          match clientGenerate st with
          | (Except.error e, tr) => (Except.error (SvcError.orError e), w1, tr)
          | (Except.ok result, tr1) =>
            match buildMetadata st req prompt.path messagesPath messageCount result with
            | (Except.error e, st', tr2) =>
              (Except.error (SvcError.orError e),
               { w1 with client := some st' }, tr1 ++ tr2)
            | (Except.ok metadata, st', tr2) =>
              let content := writeSummaryContent result.content metadata
              let w2 := fsWrite { w1 with client := some st' } cachePath (FileVal.text content)
              (Except.ok { body := ensureNL result.content, cachePath := cachePath,
                           metadata := metadata, cached := false }, w2, tr1 ++ tr2)

/-- Embedding of `SummaryService.generate`. -/
def generate (svc : SummaryService) (w : World) (req : SummaryRequest)
    (useCache refresh : Bool) (msgsOpt : Option (List ChatMsg) := none) :
    (Except SvcError SummaryRecord) × World × List HttpEvent :=
  let cachePath := cachePathOf svc req
  let messagesPath := messagesPathOf svc req
  if useCache && !refresh then
    match fsLookup w cachePath with
    | some (FileVal.text content) =>
      (match splitFrontMatter content with
       | Except.error _ => (Except.error SvcError.valueError, w, [])
       | Except.ok (meta, body) =>
         match ensureMessagesFile w req.sessionPath messagesPath false with
         | Except.error e => (Except.error e, w, [])
         | Except.ok (messageCount, w') =>
           let meta1 :=
             if jhasKey meta (pyOf "messages_path") then meta
             else meta ++ [(pyOf "messages_path", PyJson.str (pathToStr messagesPath))]
           let meta2 :=
             match messageCount with
             | some n =>
               if jhasKey meta1 (pyOf "message_count") then meta1
               else meta1 ++ [(pyOf "message_count", PyJson.num n)]
             | none => meta1
           (Except.ok { body := body, cachePath := cachePath,
                        metadata := meta2, cached := true }, w', []))
    | some (FileVal.jsonl _) => (Except.error SvcError.unmodeledRead, w, [])
    | none => generateMiss svc w req refresh msgsOpt
  else generateMiss svc w req refresh msgsOpt

theorem fsLookup_fsWrite_same (w : World) (p : FsPath) (v : FileVal) :
    fsLookup (fsWrite w p v) p = some v := by
  simp [fsLookup, fsWrite, List.find?_cons_of_pos]

theorem fsLookup_fsWrite_other (w : World) (p q : FsPath) (v : FileVal) (h : q ≠ p) :
    fsLookup (fsWrite w p v) q = fsLookup w q := by
  unfold fsLookup fsWrite
  rw [show ((p, v) :: w.files).find? (fun kv => kv.1 == q) =
      w.files.find? (fun kv => kv.1 == q) from ?_]
  apply List.find?_cons_of_neg
  simp
  intro hc
  exact absurd hc.symm h

theorem fsLookup_setClient (w : World) (c : Option ClientState) (q : FsPath) :
    fsLookup { w with client := c } q = fsLookup w q := rfl

theorem rwr_first_success (mr : Nat) (script : Nat → Attempt)
    (data : List (PyStr × PyJson))
    (h : script 0 = Attempt.response 200 (RespBody.json (PyJson.obj data))) :
    requestWithRetries mr script = (Except.ok data, 1) := by
  cases mr with
  | zero =>
    unfold requestWithRetries requestWithRetriesAux
    rw [h]
    rfl
  | succ rem =>
    unfold requestWithRetries requestWithRetriesAux
    rw [h]
    rfl

theorem modelCatalog_trace (st : ClientState) (f : Bool) :
    ∀ e ∈ (modelCatalog st f).2.2, e = HttpEvent.modelsRequest := by
  unfold modelCatalog
  by_cases hc : (!f && !st.modelCache.isEmpty && st.cacheFresh) = true
  · rw [if_pos hc]
    intro e he
    simp at he
  · rw [if_neg hc]
    rcases hr : requestWithRetries st.maxRetries st.modelsScript with ⟨res, n⟩
    cases res with
    | error e0 =>
      intro e he
      simp only [] at he
      exact List.eq_of_mem_replicate he
    | ok kvs =>
      intro e he
      simp only [] at he
      rcases hd : jget kvs (pyOf "data") with _ | v
      · rw [hd] at he
        simp only [] at he
        exact List.eq_of_mem_replicate he
      · cases v <;> rw [hd] at he <;> simp only [] at he <;>
          exact List.eq_of_mem_replicate he

theorem estimateCost_trace_eq (st : ClientState) (model : PyStr)
    (usage : List (PyStr × PyJson)) :
    (estimateCost st model usage).2.2 = (modelCatalog st false).2.2 := by
  unfold estimateCost
  rcases hmc : modelCatalog st false with ⟨res, stc, tr⟩
  cases res with
  | error e0 => rfl
  | ok catalog =>
    simp only []
    repeat' split
    all_goals rfl

theorem estimateCost_trace (st : ClientState) (model : PyStr)
    (usage : List (PyStr × PyJson)) :
    ∀ e ∈ (estimateCost st model usage).2.2, e = HttpEvent.modelsRequest := by
  intro e he
  rw [estimateCost_trace_eq] at he
  exact modelCatalog_trace st false e he

theorem cachePath_ne_messagesPath (svc : SummaryService) (req : SummaryRequest) :
    cachePathOf svc req ≠ messagesPathOf svc req := by
  unfold cachePathOf messagesPathOf cache_path_for messages_path_for
  intro h
  have hlen := congrArg List.length h
  simp only [List.length_append, List.length_cons, List.length_nil] at hlen
  omega

theorem generate_cacheHit (svc : SummaryService) (w : World) (req : SummaryRequest)
    (content : PyStr)
    (hfile : fsLookup w (cachePathOf svc req) = some (FileVal.text content)) :
    generate svc w req true false =
      (match splitFrontMatter content with
       | Except.error _ => (Except.error SvcError.valueError, w, [])
       | Except.ok (meta, body) =>
         match ensureMessagesFile w req.sessionPath (messagesPathOf svc req) false with
         | Except.error e => (Except.error e, w, [])
         | Except.ok (messageCount, w') =>
           let meta1 :=
             if jhasKey meta (pyOf "messages_path") then meta
             else meta ++ [(pyOf "messages_path",
               PyJson.str (pathToStr (messagesPathOf svc req)))]
           let meta2 :=
             match messageCount with
             | some n =>
               if jhasKey meta1 (pyOf "message_count") then meta1
               else meta1 ++ [(pyOf "message_count", PyJson.num n)]
             | none => meta1
           (Except.ok { body := body, cachePath := cachePathOf svc req,
                        metadata := meta2, cached := true }, w', [])) := by
  unfold generate
  simp only []
  rw [if_pos (show (true && !false) = true from rfl), hfile]

/-- Claim C1: for every request whose resolved cache path holds an
existing summary file, `generate` with `use_cache = True` and
`refresh = False` performs no HTTP request (the trace is empty whatever
the cached text contains), and — whenever the cached file's front matter
parses and the messages log or the session file exists, so that the
cache-hit path completes — it returns a record with `cached = True`. -/
theorem c1_cache_hit_no_http (svc : SummaryService) (w : World) (req : SummaryRequest)
    (content : PyStr)
    (hfile : fsLookup w (cachePathOf svc req) = some (FileVal.text content)) :
    (generate svc w req true false).2.2 = [] ∧
    (∀ meta body, splitFrontMatter content = Except.ok (meta, body) →
      ((fsLookup w (messagesPathOf svc req)).isSome ∨
        (sessLinesOf w req.sessionPath).isSome) →
      ∃ r w', generate svc w req true false = (Except.ok r, w', []) ∧ r.cached = true) := by
  have hred := generate_cacheHit svc w req content hfile
  constructor
  · rw [hred]
    rcases hsp : splitFrontMatter content with e | mb
    · rfl
    · obtain ⟨meta, body⟩ := mb
      simp only []
      rcases hem : ensureMessagesFile w req.sessionPath (messagesPathOf svc req) false
          with e | p
      · rfl
      · obtain ⟨mc, w'⟩ := p
        rfl
  · intro meta body hparse hsrc
    have hem : ∃ x, ensureMessagesFile w req.sessionPath (messagesPathOf svc req) false =
        Except.ok x := by
      unfold ensureMessagesFile
      by_cases hm : (fsLookup w (messagesPathOf svc req)).isNone = true
      · rw [if_pos (by simp [hm])]
        rcases hsrc with hs | hs
        · rw [Option.isNone_iff_eq_none] at hm
          rw [hm] at hs
          simp at hs
        · obtain ⟨ls, hls⟩ := Option.isSome_iff_exists.mp hs
          rw [hls]
          exact ⟨_, rfl⟩
      · rw [if_neg (by simp [hm])]
        exact ⟨_, rfl⟩
    obtain ⟨⟨mc, w'⟩, hemeq⟩ := hem
    rw [hred, hparse]
    simp only []
    rw [hemeq]
    exact ⟨_, w', rfl, rfl⟩

def c1Digest : FsPath → PyStr := fun _ => pyOf "d1"

def c1Svc : SummaryService :=
  { summaryRoot := [pyOf "root"], sessionsRoot := none,
    promptDirs := [], digest := c1Digest }

def c1Req : SummaryRequest :=
  { sessionPath := [pyOf "s.jsonl"], promptVariant := pyOf "summary", model := pyOf "m" }

def c1World : World :=
  { files := [(cachePathOf c1Svc c1Req, FileVal.text (pyOf "Cached summary.\n")),
              (messagesPathOf c1Svc c1Req, FileVal.jsonl [])],
    client := none }

theorem c1_witness :
    (generate c1Svc c1World c1Req true false).2.2 = [] ∧
    (match (generate c1Svc c1World c1Req true false).1 with
     | Except.ok r => r.cached
     | Except.error _ => false) = true := by
  have h := c1_cache_hit_no_http c1Svc c1World c1Req (pyOf "Cached summary.\n") rfl
  refine ⟨h.1, ?_⟩
  obtain ⟨r, w', heq, hc⟩ := h.2 [] (pyOf "Cached summary.\n") rfl (Or.inl rfl)
  rw [show (generate c1Svc c1World c1Req true false).1 = Except.ok r from by rw [heq]]
  exact hc

/-- Claim C5 (amended): with `refresh = True` the cache is bypassed
regardless of `use_cache` and of any existing cached summary: whenever
the client is configured, the prompt loads, the session file exists, the
first completion attempt succeeds and parses, and cost estimation does
not raise, `generate` returns a fresh record (`cached = False`), issues
exactly one completion request (further requests in the trace are
catalog fetches for cost estimation, not completions), and rewrites the
extracted-message log from a fresh extraction of the session file. -/
theorem c5_refresh_single_completion_and_rewrite
    (svc : SummaryService) (w : World) (req : SummaryRequest) (useCache : Bool)
    (st : ClientState) (ls : List SessLine) (data : List (PyStr × PyJson))
    (result : ChatCompletionResult)
    (hclient : w.client = some st)
    (hprompt : ∃ doc, promptLoad svc w req.promptVariant = Except.ok doc)
    (hsess : sessLinesOf w req.sessionPath = some ls)
    (hcomp : st.completionScript 0 = Attempt.response 200 (RespBody.json (PyJson.obj data)))
    (hparse : parseChatCompletion data = Except.ok result)
    (hcost : ∃ c, (estimateCost st req.model result.usage).1 = Except.ok c) :
    ∃ r w' tr, generate svc w req useCache true = (Except.ok r, w', tr) ∧
      r.cached = false ∧
      tr.countP (fun e => match e with
        | HttpEvent.completionRequest => true
        | HttpEvent.modelsRequest => false) = 1 ∧
      fsLookup w' (messagesPathOf svc req) =
        some (FileVal.jsonl ((write_messages_jsonl ls).1.map SessLine.val)) := by
  obtain ⟨doc, hdoc⟩ := hprompt
  obtain ⟨c, hcost⟩ := hcost
  rcases hestfull : estimateCost st req.model result.usage with ⟨e1, st', tr2⟩
  rw [hestfull] at hcost
  simp only [] at hcost
  subst hcost
  have htr2 : ∀ e ∈ tr2, e = HttpEvent.modelsRequest := by
    have h := estimateCost_trace st req.model result.usage
    rw [hestfull] at h
    exact h
  have hgen : generate svc w req useCache true = generateMiss svc w req true none := by
    unfold generate
    simp only [Bool.not_true, Bool.and_false]
    rw [if_neg (by simp)]
  have hens : ensureMessagesFile w req.sessionPath (messagesPathOf svc req) true =
      Except.ok (some (write_messages_jsonl ls).1.length,
        fsWrite w (messagesPathOf svc req)
          (FileVal.jsonl ((write_messages_jsonl ls).1.map SessLine.val))) := by
    unfold ensureMessagesFile
    rw [if_pos (by simp)]
    rw [hsess]
  have hcg : clientGenerate st = (Except.ok result, [HttpEvent.completionRequest]) := by
    unfold clientGenerate
    rw [rwr_first_success st.maxRetries st.completionScript data hcomp]
    simp only []
    rw [hparse]
    rfl
  have hdm : ∃ ms, defaultMessages doc.content
      (fsWrite w (messagesPathOf svc req)
        (FileVal.jsonl ((write_messages_jsonl ls).1.map SessLine.val)))
      (messagesPathOf svc req) = Except.ok ms := by
    unfold defaultMessages
    rw [fsLookup_fsWrite_same]
    exact ⟨_, rfl⟩
  obtain ⟨ms, hdm⟩ := hdm
  have hbm : ∃ M, buildMetadata st req doc.path (messagesPathOf svc req)
      (some (write_messages_jsonl ls).1.length) result = (Except.ok M, st', tr2) := by
    unfold buildMetadata
    rw [hestfull]
    exact ⟨_, rfl⟩
  obtain ⟨M, hbm⟩ := hbm
  rw [hgen]
  unfold generateMiss
  simp only []
  rw [hclient]
  simp only []
  rw [hdoc]
  simp only []
  rw [hens]
  simp only []
  rw [hdm]
  simp only []
  rw [hcg]
  simp only []
  rw [hbm]
  simp only []
  refine ⟨_, _, _, rfl, rfl, ?_, ?_⟩
  · rw [List.countP_append]
    have h0 : tr2.countP (fun e => match e with
        | HttpEvent.completionRequest => true
        | HttpEvent.modelsRequest => false) = 0 := by
      refine List.countP_eq_zero.mpr (fun a ha => ?_)
      rw [htr2 a ha]
      simp
    rw [h0]
    rfl
  · rw [fsLookup_fsWrite_other _ _ _ _ (Ne.symm (cachePath_ne_messagesPath svc req))]
    rw [fsLookup_setClient]
    rw [fsLookup_fsWrite_same]

def c5Digest : FsPath → PyStr := fun _ => pyOf "d5"

def c5Svc : SummaryService :=
  { summaryRoot := [pyOf "root"], sessionsRoot := none,
    promptDirs := [[pyOf "prompts"]], digest := c5Digest }

def c5Req : SummaryRequest :=
  { sessionPath := [pyOf "sess.jsonl"], promptVariant := pyOf "summary", model := pyOf "m" }

def c5CompletionBody : PyJson :=
  PyJson.obj [(pyOf "choices", PyJson.arr
    [PyJson.obj [(pyOf "message",
      PyJson.obj [(pyOf "content", PyJson.str (pyOf "S"))])]])]

def c5Client : ClientState :=
  { apiKey := "k", maxRetries := 0,
    completionScript := fun _ => Attempt.response 200 (RespBody.json c5CompletionBody),
    modelsScript := fun _ => Attempt.response 200
      (RespBody.json (PyJson.obj [(pyOf "data", PyJson.arr [])])),
    modelCache := [], cacheFresh := false }

def c5World : World :=
  { files := [([pyOf "sess.jsonl"],
       FileVal.jsonl [SessLine.val (PyJson.obj [(pyOf "type", PyJson.str (pyOf "message"))])]),
      ([pyOf "prompts", pyOf "summary.md"],
       FileVal.text (pyOf "Use \x7b\x7bt\x7d\x7d"))],
    client := some c5Client }

/-- Counterexample for claim C5: with a stale model catalog a refreshing
`generate` issues two HTTP requests — the completion POST and the
model-catalog GET made by cost estimation — not exactly one. -/
theorem c5_counterexample_two_http_requests :
    (generate c5Svc c5World c5Req true true).2.2 =
      [HttpEvent.completionRequest, HttpEvent.modelsRequest] := rfl

def c5Data : List (PyStr × PyJson) :=
  [(pyOf "choices", PyJson.arr
    [PyJson.obj [(pyOf "message",
      PyJson.obj [(pyOf "content", PyJson.str (pyOf "S"))])]])]

def c5Result : ChatCompletionResult :=
  { content := pyOf "S", usage := [], raw := c5Data,
    reasoning := none, finishReason := none }

theorem c5_witness :
    (match (generate c5Svc c5World c5Req true true).1 with
     | Except.ok r => r.cached
     | Except.error _ => true) = false ∧
    (generate c5Svc c5World c5Req true true).2.2.countP (fun e => match e with
      | HttpEvent.completionRequest => true
      | HttpEvent.modelsRequest => false) = 1 := by
  obtain ⟨r, w', tr, heq, hc, hcount, hmsg⟩ :=
    c5_refresh_single_completion_and_rewrite c5Svc c5World c5Req true c5Client
      [SessLine.val (PyJson.obj [(pyOf "type", PyJson.str (pyOf "message"))])]
      c5Data c5Result rfl ⟨_, rfl⟩ rfl rfl rfl ⟨none, rfl⟩
  constructor
  · rw [heq]
    simp only []
    exact hc
  · rw [heq]
    exact hcount
